import Mathlib

/-!
# MelodyAI — verification of the arrangement-and-signal-routing engine

A shallow embedding of the music engine of the MelodyAI repository.
The repository carries two generations of the engine:

* `src/services/audioEngine.ts` — the richer, genre-differentiated
  real-time engine (`playSongDemo`, `playArrangement`,
  `getChordFrequencies`, `stopAudio`);
* `src/unnamed/part_000` — the engine variant with the offline export
  path (`renderMusicToContext`, `renderSongToBlob`, `audioBufferToWav`)
  and its own simpler arrangement walk.

Definitions suffixed `P0` embed the `part_000` variant; unsuffixed
definitions embed `src/services/audioEngine.ts`.  Time and gain values
are embedded as exact rationals (the source computes over JS doubles on
exact decimal inputs); note frequencies are kept symbolic as pairs
(root frequency, semitone offset) with the source's
`base * 2^(semitone/12)` applied by `freqVal` over the reals.

The event traces record, for every scheduled voice, its kind, start
time, destination node and (for notes) its symbolic frequency; the
gain/pan envelope automation values of a voice do not figure in any of
the verified properties and are not recorded.
-/

namespace MelodyAI

/-- `SongGenre` from src/types.ts. -/
inductive SongGenre
  | rnb | pop | country | chinese
deriving DecidableEq, Repr

/-- `SongSectionType` from src/types.ts. -/
inductive SongSectionType
  | verse | chorus | bridge | outro
deriving DecidableEq, Repr

/-- `SongSection` from src/types.ts. -/
structure SongSection where
  type : SongSectionType
  lyrics : List String
  chords : List String
deriving DecidableEq, Repr

/-- `Song` from src/types.ts. -/
structure Song where
  title : String
  genre : SongGenre
  artistStyle : String
  tempo : String
  key : String
  description : String
  coverArt : Option String
  sections : List SongSection
deriving DecidableEq, Repr

/-- The `NOTES` frequency table (audioEngine.ts lines 4-12; part_000
lines 3-11 is identical). -/
def NOTES : List (String × ℚ) :=
  [("Cb", 246.94), ("C", 261.63), ("C#", 277.18), ("Db", 277.18),
   ("D", 293.66), ("D#", 311.13), ("Eb", 311.13),
   ("E", 329.63), ("E#", 349.23),
   ("F", 349.23), ("F#", 369.99), ("Gb", 369.99),
   ("G", 392.00), ("G#", 415.30), ("Ab", 415.30),
   ("A", 440.00), ("A#", 466.16), ("Bb", 466.16),
   ("B", 493.88), ("B#", 523.25)]

/-- The `CHORD_SHAPES` table (audioEngine.ts lines 15-30), in object
insertion order. -/
def CHORD_SHAPES : List (String × List ℕ) :=
  [("maj", [0, 4, 7]), ("min", [0, 3, 7]), ("m", [0, 3, 7]),
   ("dim", [0, 3, 6]), ("aug", [0, 4, 8]),
   ("7", [0, 4, 7, 10]), ("maj7", [0, 4, 7, 11]), ("m7", [0, 3, 7, 10]),
   ("9", [0, 4, 7, 10, 14]), ("maj9", [0, 4, 7, 11, 14]), ("m9", [0, 3, 7, 10, 14]),
   ("sus4", [0, 5, 7]), ("sus2", [0, 2, 7]), ("add9", [0, 4, 7, 14])]

/-- The `CHORD_SHAPES` table of part_000 (lines 13-17), in object
insertion order (it lacks aug, maj9 and m9). -/
def CHORD_SHAPES_P0 : List (String × List ℕ) :=
  [("maj", [0, 4, 7]), ("min", [0, 3, 7]), ("m", [0, 3, 7]), ("dim", [0, 3, 6]),
   ("7", [0, 4, 7, 10]), ("maj7", [0, 4, 7, 11]), ("m7", [0, 3, 7, 10]),
   ("9", [0, 4, 7, 10, 14]), ("add9", [0, 4, 7, 14]), ("sus4", [0, 5, 7]),
   ("sus2", [0, 2, 7])]

/-- The regex match `^([A-G][#b]?)(.*)$` of getChordFrequencies
(audioEngine.ts line 262; part_000 line 158): the (root, quality)
capture groups, or none when the first character is not A-G. -/
def parseRoot (s : String) : Option (String × String) :=
  match s.data with
  | [] => none
  | c :: rest =>
      if 'A' ≤ c && c ≤ 'G' then
        match rest with
        | c2 :: rest2 =>
            if c2 == '#' || c2 == 'b' then some (String.mk [c, c2], String.mk rest2)
            else some (String.mk [c], String.mk (c2 :: rest2))
        | [] => some (String.mk [c], "")
      else none

/-- JS String.prototype.startsWith: a prefix test on the character
sequence (the core library's String.startsWith is the same predicate,
stated through substrings; this form reduces). -/
def strStartsWith (s p : String) : Bool := p.data.isPrefixOf s.data

/-- JS String.prototype.split with a single-character-class separator
regex: cut the character sequence at every separator character (the
`+` quantifier of the source's regexes is immaterial because both call
sites drop empty pieces right after). -/
def jsSplit (p : Char → Bool) (line : String) : List String :=
  (line.data.splitOnP p).map String.mk

/-- Insert a string into a length-descending list, keeping it before
later entries of equal length. -/
def insertByLen (x : String) : List String → List String
  | [] => [x]
  | y :: ys => if y.length ≤ x.length then x :: y :: ys else y :: insertByLen x ys

/-- Stable sort by descending string length: the JS
`keys.sort((a, b) => b.length - a.length)` of audioEngine.ts line 271
(Array.prototype.sort is stable). -/
def sortByLenDesc (l : List String) : List String := l.foldr insertByLen []

/-- The sorted quality keys scanned by getChordFrequencies
(audioEngine.ts line 271). -/
def qualityKeys : List String := sortByLenDesc (CHORD_SHAPES.map Prod.fst)

/-- The quality-to-intervals selection of getChordFrequencies
(audioEngine.ts lines 270-278): start from the maj triad, scan the keys
sorted by descending length and take the first that `quality` equals or
starts with; afterwards the source re-assigns the minor triad when the
quality is exactly "m" or "min" (a no-op, both lookups give [0,3,7]). -/
def chordIntervals (quality : String) : List ℕ :=
  let scanned :=
    match qualityKeys.find? (fun k => quality == k || strStartsWith quality k) with
    | some k => (CHORD_SHAPES.lookup k).getD ((CHORD_SHAPES.lookup "maj").getD [])
    | none => (CHORD_SHAPES.lookup "maj").getD []
  if quality == "m" || quality == "min" then (CHORD_SHAPES.lookup "m").getD []
  else scanned

/-- getChordFrequencies (audioEngine.ts lines 261-281), kept symbolic:
each entry is (root frequency from NOTES, semitone offset).  The
source's final `baseFreq * Math.pow(2, semitones / 12)` is `freqVal`
below.  An empty quality capture defaults to "maj" (line 266). -/
def getChordFrequencies (chordName : String) : List (ℚ × ℕ) :=
  match parseRoot chordName with
  | none => []
  | some (rootNote, q) =>
      let quality := if q == "" then "maj" else q
      match NOTES.lookup rootNote with
      | none => []
      | some baseFreq => (chordIntervals quality).map (fun s => (baseFreq, s))

/-- The numeric frequency a symbolic (base, semitone) pair stands for:
`baseFreq * 2^(semitones/12)` (audioEngine.ts line 280). -/
noncomputable def freqVal (p : ℚ × ℕ) : ℝ := (p.1 : ℝ) * (2 : ℝ) ^ ((p.2 : ℝ) / 12)

/-- getChordFrequencies as the list of real frequencies the source
returns. -/
noncomputable def getChordFrequenciesR (chordName : String) : List ℝ :=
  (getChordFrequencies chordName).map freqVal

/-- The sorted quality keys of part_000 (line 165). -/
def qualityKeysP0 : List String := sortByLenDesc (CHORD_SHAPES_P0.map Prod.fst)

/-- The quality-to-intervals selection of part_000's getChordFrequencies
(lines 164-167): like the services one but with the smaller table, a
plain startsWith test and no trailing minor re-assignment. -/
def chordIntervalsP0 (quality : String) : List ℕ :=
  match qualityKeysP0.find? (fun k => strStartsWith quality k) with
  | some k => (CHORD_SHAPES_P0.lookup k).getD ((CHORD_SHAPES_P0.lookup "maj").getD [])
  | none => (CHORD_SHAPES_P0.lookup "maj").getD []

/-- part_000's getChordFrequencies (lines 157-169), symbolic as above. -/
def getChordFrequenciesP0 (chordName : String) : List (ℚ × ℕ) :=
  match parseRoot chordName with
  | none => []
  | some (rootNote, q) =>
      let quality := if q == "" then "maj" else q
      match NOTES.lookup rootNote with
      | none => []
      | some baseFreq => (chordIntervalsP0 quality).map (fun s => (baseFreq, s))

/-- The first maximal run of ASCII digits anywhere in a character list:
the capture of `tempo.match(/(\d+)/)` (audioEngine.ts line 513). -/
def firstDigitRun : List Char → Option (List Char)
  | [] => none
  | c :: cs => if c.isDigit then some (c :: cs.takeWhile Char.isDigit) else firstDigitRun cs

/-- Decimal value of a digit run (the `parseInt` applied to the regex
capture, which is all digits). -/
def digitsVal (ds : List Char) : ℕ := ds.foldl (fun acc c => 10 * acc + (c.toNat - 48)) 0

/-- The BPM of playSongDemo (audioEngine.ts lines 513-514):
`tempoMatch ? parseInt(tempoMatch[1]) : 100`. -/
def parseTempoSvc (tempo : String) : ℚ :=
  match firstDigitRun tempo.data with
  | some ds => (digitsVal ds : ℚ)
  | none => 100

/-- JS `parseInt(t)` on a decimal string: skip whitespace, an optional
sign, then a leading digit run; `none` when no digit follows (NaN).
The hexadecimal "0x" form parseInt also accepts never occurs in tempo
strings and is not modelled. -/
def jsParseInt (t : String) : Option ℤ :=
  let cs := t.data.dropWhile Char.isWhitespace
  let signed : ℤ × List Char :=
    match cs with
    | c :: rest => if c == '-' then (-1, rest) else if c == '+' then (1, rest) else (1, cs)
    | [] => (1, [])
  let ds := signed.2.takeWhile Char.isDigit
  if ds.isEmpty then none else some (signed.1 * (digitsVal ds : ℤ))

/-- The BPM of part_000's renderMusicToContext and renderSongToBlob
(lines 174 and 299): `parseInt(song.tempo) || 90` — NaN and 0 are both
falsy in JS, so both fall back to 90. -/
def parseTempoP0 (tempo : String) : ℚ :=
  match jsParseInt tempo with
  | some n => if n == 0 then 90 else (n : ℚ)
  | none => 90

/-- The kind of a scheduled voice (which play* routine created it). -/
inductive EvKind
  | kick | snare | hihat | crash | woodblock | note
deriving DecidableEq, Repr

/-- The node a voice's output is connected to, as playArrangement and
playSongDemo wire it: the sidechain-ducked `musicBus`, the
`masterCompressor` stage, or the `reverbNode` send. -/
inductive Dest
  | musicBus | masterCompressor | reverbNode
deriving DecidableEq, Repr

/-- One scheduled voice: its kind, absolute start time, destination
node, and (for playNote voices) the symbolic frequency played. -/
structure Ev where
  kind : EvKind
  time : ℚ
  dest : Dest
  freq : Option (ℚ × ℕ)
deriving DecidableEq, Repr

/-- `const hatDiv = isChorus ? 4 : 2` (audioEngine.ts line 430): the
per-beat hi-hat subdivision of the pop pattern. -/
def hatDiv (st : SongSectionType) : ℕ :=
  if st == SongSectionType.chorus then 4 else 2

/-- One iteration of the `while (currentTime < endTime - 0.1)` loop of
playArrangement (audioEngine.ts lines 417-498) with bar start `t`:
the voices scheduled, in source order, and the updated random-stream
position (`Math.random()` is drawn only in the chinese branch: one draw
for the woodblock test, a second for its placement when the test
passes).  `rootFreq = frequencies[0] / 2` (line 404); callers only
reach this code with a non-empty frequency list. -/
def barEvents (genre : SongGenre) (st : SongSectionType) (freqs : List (ℚ × ℕ))
    (t beatDur : ℚ) (rand : ℕ → ℚ) (ri : ℕ) : List Ev × ℕ :=
  let isChorus := st == SongSectionType.chorus
  let f0 := freqs.headD (0, 0)
  let rootFreq : ℚ × ℕ := (f0.1 / 2, f0.2)
  let drums : List Ev × ℕ :=
    match genre with
    | .pop =>
        ([⟨.kick, t, .masterCompressor, none⟩,
          ⟨.snare, t + beatDur, .masterCompressor, none⟩,
          ⟨.kick, t + beatDur * 2, .masterCompressor, none⟩,
          ⟨.snare, t + beatDur * 3, .masterCompressor, none⟩]
         ++ (List.range (4 * hatDiv st)).map (fun i =>
              ⟨.hihat, t + (beatDur / (hatDiv st : ℚ)) * (i : ℚ), .masterCompressor, none⟩)
         ++ (List.range 8).map (fun i =>
              ⟨.note, t + (beatDur / 2) * (i : ℚ), .musicBus, some rootFreq⟩), ri)
    | .rnb =>
        ([⟨.kick, t, .masterCompressor, none⟩,
          ⟨.snare, t + beatDur, .masterCompressor, none⟩,
          ⟨.kick, t + beatDur * (5/2), .masterCompressor, none⟩,
          ⟨.note, t, .musicBus, some rootFreq⟩,
          ⟨.note, t + beatDur * (5/2), .musicBus, some rootFreq⟩]
         ++ (List.range 8).map (fun i =>
              ⟨.hihat, t + (beatDur / 2) * (i : ℚ), .masterCompressor, none⟩), ri)
    | .country =>
        ([⟨.kick, t, .masterCompressor, none⟩,
          ⟨.snare, t + beatDur, .masterCompressor, none⟩,
          ⟨.kick, t + beatDur * 2, .masterCompressor, none⟩,
          ⟨.snare, t + beatDur * 3, .masterCompressor, none⟩,
          ⟨.note, t, .musicBus, some rootFreq⟩,
          ⟨.note, t + beatDur * 2, .musicBus, some ((3/2) * rootFreq.1, rootFreq.2)⟩], ri)
    | .chinese =>
        let kicks : List Ev :=
          if isChorus then [⟨.kick, t, .masterCompressor, none⟩] else []
        let drone : List Ev := [⟨.note, t, .musicBus, some rootFreq⟩]
        if rand ri > 3/5 then
          (kicks ++ [⟨.woodblock, t + beatDur * (rand (ri + 1) * 4), .masterCompressor, none⟩]
                 ++ drone, ri + 2)
        else
          (kicks ++ drone, ri + 1)
  let harmony : List Ev :=
    freqs.flatMap (fun f =>
      [⟨.note, t, .musicBus, some f⟩, ⟨.note, t, .reverbNode, some f⟩])
  let arp : List Ev :=
    if genre == SongGenre.pop && isChorus then
      (List.range 16).map (fun i =>
        let f := freqs.getD (i % freqs.length) (0, 0)
        ⟨.note, t + (beatDur / 4) * (i : ℚ), .musicBus, some (f.1 * 2, f.2)⟩)
    else []
  let strum : List Ev :=
    if genre == SongGenre.country then
      (freqs.enum.map (fun fi =>
        ⟨.note, t + (fi.1 : ℚ) * (3/100), .musicBus, some fi.2⟩))
      ++ (freqs.enum.map (fun fi =>
        ⟨.note, t + beatDur * 2 + (fi.1 : ℚ) * (3/100), .musicBus, some fi.2⟩))
    else []
  (drums.1 ++ harmony ++ arp ++ strum, drums.2)

/-- The number of iterations of `while (currentTime < endTime - 0.1)`
when currentTime starts at startTime and advances by barDur each pass
(audioEngine.ts lines 417, 497): the least n with
`n * barDur ≥ duration - 0.1`, as a closed form valid for barDur > 0. -/
def numBars (duration barDur : ℚ) : ℕ := ⌈(duration - 1/10) / barDur⌉.toNat

/-- playArrangement (audioEngine.ts lines 375-499): the scheduled
voices, in source order, and the random-stream position after the call.
The opening crash of a chorus (lines 413-414) is guarded by
`Math.abs(currentTime - startTime) < 0.1`, with currentTime just
initialized to startTime; it is sent to the music bus. -/
def playArrangementEvents (genre : SongGenre) (st : SongSectionType)
    (freqs : List (ℚ × ℕ)) (startTime duration bpm : ℚ)
    (rand : ℕ → ℚ) (ri : ℕ) : List Ev × ℕ :=
  let beatDur := 60 / bpm
  let barDur := beatDur * 4
  let isChorus := st == SongSectionType.chorus
  let crash : List Ev :=
    if isChorus && |startTime - startTime| < 1/10 then
      [⟨.crash, startTime, .musicBus, none⟩]
    else []
  let bars :=
    (List.range (numBars duration barDur)).foldl
      (fun (acc : List Ev × ℕ) (i : ℕ) =>
        let be := barEvents genre st freqs (startTime + (i : ℚ) * barDur) beatDur rand acc.2
        (acc.1 ++ be.1, be.2))
      (([] : List Ev), ri)
  (crash ++ bars.1, bars.2)

/-- Chord-line splitting of playSongDemo (audioEngine.ts line 552):
`split(/[\s-]+/)` then drop empty pieces. -/
def splitChordsSvc (line : String) : List String :=
  (jsSplit (fun c => c.isWhitespace || c == '-') line).filter (fun s => s.length > 0)

/-- Chord-line splitting of part_000 (lines 220, 302): `split(/\s+/)`
then drop empty pieces. -/
def splitChordsP0 (line : String) : List String :=
  (jsSplit Char.isWhitespace line).filter (fun s => s.length > 0)

/-- The running state of the playSongDemo walk: scheduled events so
far, the cursor, and the random-stream position. -/
abbrev WalkState := List Ev × ℚ × ℕ

/-- One chord slot of playSongDemo (audioEngine.ts lines 555-572):
resolve the chord; when the frequency list is non-empty schedule a
playArrangement call at the cursor; either way advance the cursor by
durationPerChord. -/
def slotStep (genre : SongGenre) (st : SongSectionType) (bpm durationPerChord : ℚ)
    (rand : ℕ → ℚ) (acc : WalkState) (chordName : String) : WalkState :=
  let freqs := getChordFrequencies chordName
  let next :=
    if freqs.length > 0 then
      playArrangementEvents genre st freqs acc.2.1 durationPerChord bpm rand acc.2.2
    else ([], acc.2.2)
  (acc.1 ++ next.1, acc.2.1 + durationPerChord, next.2)

/-- One chord line of playSongDemo (audioEngine.ts lines 551-572):
split the line, allot `secondsPerBar / (count || 1)` per chord, walk
the chords. -/
def lineStep (genre : SongGenre) (st : SongSectionType) (bpm secondsPerBar : ℚ)
    (rand : ℕ → ℚ) (acc : WalkState) (chordLine : String) : WalkState :=
  let chordsInLine := splitChordsSvc chordLine
  let durationPerChord :=
    secondsPerBar / ((if chordsInLine.length = 0 then 1 else chordsInLine.length : ℕ) : ℚ)
  chordsInLine.foldl (slotStep genre st bpm durationPerChord rand) acc

/-- The chord lines a section contributes in playSongDemo (audioEngine.ts
line 549): the section's chord lines, or one "C" line per lyric line
when there are none. -/
def sectionChordLines (sec : SongSection) : List String :=
  if sec.chords.length > 0 then sec.chords
  else List.replicate sec.lyrics.length "C"

/-- One section of playSongDemo (audioEngine.ts lines 547-573). -/
def sectionStep (genre : SongGenre) (bpm secondsPerBar : ℚ) (rand : ℕ → ℚ)
    (acc : WalkState) (sec : SongSection) : WalkState :=
  (sectionChordLines sec).foldl (lineStep genre sec.type bpm secondsPerBar rand) acc

/-- The music-arrangement walk of playSongDemo (audioEngine.ts lines
501-580).  The vocal chain (lines 518-544) starts buffer sources at
fixed offsets into the compressor and reverb sends and schedules no
arrangement voices, so it is not part of the event trace.  Returns
(events, final cursor, random position); the returned duration of the
source is final cursor - startTime. -/
def playSongDemoTrace (song : Song) (startTime : ℚ) (rand : ℕ → ℚ) : WalkState :=
  let bpm := parseTempoSvc song.tempo
  let secondsPerBar := (60 / bpm) * 4
  song.sections.foldl (sectionStep song.genre bpm secondsPerBar rand)
    (([] : List Ev), startTime, 0)

/-- One chord slot of part_000's renderMusicToContext (lines 222-232):
when the chord resolves, schedule each chord note and a bass note at
the cursor into the music bus, a kick at the cursor and a snare at
cursor + dur/2 into the compressor, and four hi-hats at quarter-slot
offsets into the compressor; either way advance the cursor by dur. -/
def slotStepP0 (dur : ℚ) (acc : List Ev × ℚ) (c : String) : List Ev × ℚ :=
  let freqs := getChordFrequenciesP0 c
  let f0 := freqs.headD (0, 0)
  let evs : List Ev :=
    if freqs.length > 0 then
      (freqs.map (fun f => ⟨.note, acc.2, .musicBus, some f⟩))
      ++ [⟨.note, acc.2, .musicBus, some (f0.1 / 2, f0.2)⟩,
          ⟨.kick, acc.2, .masterCompressor, none⟩,
          ⟨.snare, acc.2 + dur / 2, .masterCompressor, none⟩]
      ++ (List.range 4).map (fun i =>
          ⟨.hihat, acc.2 + (dur / 4) * (i : ℚ), .masterCompressor, none⟩)
    else []
  (acc.1 ++ evs, acc.2 + dur)

/-- One chord line of part_000's renderMusicToContext (lines 219-233). -/
def lineStepP0 (barDur : ℚ) (acc : List Ev × ℚ) (chordLine : String) : List Ev × ℚ :=
  let chords := splitChordsP0 chordLine
  let dur := barDur / ((if chords.length = 0 then 1 else chords.length : ℕ) : ℚ)
  chords.foldl (slotStepP0 dur) acc

/-- The arrangement walk of part_000's renderMusicToContext (lines
172-237), events and final cursor; the source's returned duration is
final cursor - startTime.  The vocal chain (lines 179-216) schedules
no arrangement voices. -/
def renderMusicTrace (song : Song) (startTime : ℚ) : List Ev × ℚ :=
  let bpm := parseTempoP0 song.tempo
  let barDur := (60 / bpm) * 4
  song.sections.foldl
    (fun acc sec => sec.chords.foldl (lineStepP0 barDur) acc)
    (([] : List Ev), startTime)

/-- Specification-side view of the walk of playSongDemo: the chord
slots in walk order, each as (section type, chord symbol, allotted
duration secondsPerBar / (chords in its line, or 1)). -/
def songSlots (song : Song) (secondsPerBar : ℚ) :
    List (SongSectionType × String × ℚ) :=
  song.sections.flatMap (fun sec =>
    (sectionChordLines sec).flatMap (fun line =>
      let cs := splitChordsSvc line
      let d := secondsPerBar / ((if cs.length = 0 then 1 else cs.length : ℕ) : ℚ)
      cs.map (fun c => (sec.type, c, d))))

/-- The playSongDemo walk replayed over a flat slot list. -/
def slotsWalk (genre : SongGenre) (bpm : ℚ) (rand : ℕ → ℚ) (acc : WalkState)
    (slots : List (SongSectionType × String × ℚ)) : WalkState :=
  slots.foldl (fun a sl => slotStep genre sl.1 bpm sl.2.2 rand a sl.2.1) acc

/-- Specification-side view of the walk of part_000's
renderMusicToContext: the allotted duration of each chord slot in walk
order (barDur divided by the chord count of the slot's line). -/
def p0SlotDurations (song : Song) (barDur : ℚ) : List ℚ :=
  song.sections.flatMap (fun sec =>
    sec.chords.flatMap (fun line =>
      let cs := splitChordsP0 line
      List.replicate cs.length
        (barDur / ((if cs.length = 0 then 1 else cs.length : ℕ) : ℚ))))

/-- The total chord count of renderSongToBlob (part_000 lines 301-302). -/
def totalChordsP0 (song : Song) : ℕ :=
  song.sections.foldl
    (fun n s => s.chords.foldl (fun m cl => m + (splitChordsP0 cl).length) n) 0

/-- The analytic total duration of renderSongToBlob (part_000 line
305): `totalChords * (barDur / 4) + 5`, the 5 being the reverb tail. -/
def renderSongTotalDuration (song : Song) : ℚ :=
  let bpm := parseTempoP0 song.tempo
  let barDur := (60 / bpm) * 4
  (totalChordsP0 song : ℚ) * (barDur / 4) + 5

/-- The OfflineAudioContext allocated by renderSongToBlob (part_000
lines 306-307): (channels, frames, sampleRate) =
(2, ceil(44100 * totalDuration), 44100). -/
def offlineBufferParams (song : Song) : ℕ × ℤ × ℕ :=
  (2, ⌈(44100 : ℚ) * renderSongTotalDuration song⌉, 44100)

/-- The observable state of one Web Audio node as stopAudio touches it:
whether it is a source node (AudioBufferSourceNode or OscillatorNode,
the two kinds `stop()` is called on), whether it has been stopped, and
whether it is still connected into the graph. -/
structure NodeRec where
  isSource : Bool
  stopped : Bool
  connected : Bool
deriving DecidableEq, Repr

/-- The module-level audio-engine state stopAudio acts on: the session's
nodes, keyed by identity, and `activeNodes`, the registry of node ids
the engine pushed (audioEngine.ts line 37). -/
structure EngineState where
  store : List (ℕ × NodeRec)
  activeNodes : List ℕ
deriving DecidableEq, Repr

/-- The effect of stopAudio on one registered node: `stop()` when it is
a source or oscillator node, `disconnect()` always (the try/catch
swallows the InvalidStateError of a redundant stop, which has no
further effect). -/
def stopNode (n : NodeRec) : NodeRec :=
  { n with stopped := n.stopped || n.isSource, connected := false }

/-- stopAudio (audioEngine.ts lines 250-259; part_000 lines 251-254):
stop/disconnect every node in the activeNodes registry, then reset the
registry to the empty array. -/
def stopAudioNodes (s : EngineState) : EngineState :=
  { store := s.store.map (fun p => if p.1 ∈ s.activeNodes then (p.1, stopNode p.2) else p),
    activeNodes := [] }

/-- An AudioBuffer as audioBufferToWav reads it: channel count, frame
count, sample rate, and per-channel sample data. -/
structure AudioBufferModel where
  numberOfChannels : ℕ
  length : ℕ
  sampleRate : ℕ
  channelData : List (List ℚ)
deriving DecidableEq, Repr

/-- Little-endian bytes of a 16-bit value (DataView.setUint16 with
littleEndian = true). -/
def le16 (n : ℕ) : List ℕ := [n % 256, n / 256 % 256]

/-- Little-endian bytes of a 32-bit value (DataView.setUint32 with
littleEndian = true). -/
def le32 (n : ℕ) : List ℕ :=
  [n % 256, n / 256 % 256, n / 65536 % 256, n / 16777216 % 256]

/-- Truncation toward zero, the integer conversion DataView.setInt16
applies to its argument (Rat.den is positive and Int.tdiv truncates
toward zero). -/
def truncQ (q : ℚ) : ℤ := q.num.tdiv (q.den : ℤ)

/-- One encoded 16-bit sample of audioBufferToWav (part_000 lines
288-291): clamp to [-1, 1], scale negatives by 0x8000 and others by
0x7FFF, truncate, and write the low 16 bits little-endian (setInt16
stores the two's complement, i.e. the value mod 2^16). -/
def sampleBytes (s : ℚ) : List ℕ :=
  let c := max (-1) (min 1 s)
  let scaled : ℤ := truncQ (if c < 0 then c * 32768 else c * 32767)
  le16 ((scaled % 65536).toNat)

/-- The interleaved sample payload of audioBufferToWav (part_000 lines
285-294): frame by frame, channel by channel.  A read past a channel's
data (JS `undefined`) propagates as NaN and is stored by setInt16 as 0,
which coincides with encoding a default sample of 0. -/
def wavData (b : AudioBufferModel) : List ℕ :=
  (List.range b.length).flatMap (fun o =>
    (List.range b.numberOfChannels).flatMap (fun i =>
      sampleBytes ((b.channelData.getD i []).getD o 0)))

/-- The 44-byte header of audioBufferToWav (part_000 lines 271-283).
The writes are sequential; pos is 40 when the data-chunk size
`length - pos - 4` is written, hence `len - 44`. -/
def wavHeader (b : AudioBufferModel) : List ℕ :=
  let len := b.length * b.numberOfChannels * 2 + 44
  le32 0x46464952 ++ le32 (len - 8) ++ le32 0x45564157 ++ le32 0x20746d66 ++
  le32 16 ++ le16 1 ++ le16 b.numberOfChannels ++ le32 b.sampleRate ++
  le32 (b.sampleRate * 2 * b.numberOfChannels) ++ le16 (b.numberOfChannels * 2) ++
  le16 16 ++ le32 0x61746164 ++ le32 (len - 44)

/-- audioBufferToWav (part_000 lines 257-296): the encoded byte list of
the returned Blob. -/
def audioBufferToWav (b : AudioBufferModel) : List ℕ := wavHeader b ++ wavData b

/-- Read back a little-endian 16-bit field at a byte offset. -/
def readLE16 (bytes : List ℕ) (off : ℕ) : ℕ :=
  bytes.getD off 0 + 256 * bytes.getD (off + 1) 0

/-- Read back a little-endian 32-bit field at a byte offset. -/
def readLE32 (bytes : List ℕ) (off : ℕ) : ℕ :=
  bytes.getD off 0 + 256 * bytes.getD (off + 1) 0 +
  65536 * bytes.getD (off + 2) 0 + 16777216 * bytes.getD (off + 3) 0

/-!
## Helper lemmas
-/

/-- find? over a list sorted by descending length returns an element
satisfying the predicate of maximal length among those that do. -/
theorem find?_sorted_len_max {p : String → Bool} :
    ∀ {L : List String} {k : String},
      L.Pairwise (fun a b => b.length ≤ a.length) →
      L.find? p = some k →
      p k = true ∧ ∀ x ∈ L, p x = true → x.length ≤ k.length := by
  intro L
  induction L with
  | nil => intro k _ hf; simp at hf
  | cons a l ih =>
      intro k hs hf
      rcases List.pairwise_cons.mp hs with ⟨ha, hl⟩
      by_cases hpa : p a = true
      · rw [List.find?_cons_of_pos _ hpa] at hf
        cases hf
        refine ⟨hpa, ?_⟩
        intro x hx _
        rcases List.mem_cons.mp hx with rfl | hx
        · exact le_refl _
        · exact ha x hx
      · rw [List.find?_cons_of_neg _ hpa] at hf
        obtain ⟨hk, hmax⟩ := ih hl hf
        refine ⟨hk, ?_⟩
        intro x hx hpx
        rcases List.mem_cons.mp hx with rfl | hx
        · exact absurd hpx hpa
        · exact hmax x hx hpx

/-- The sorted quality-key list of the services engine, computed. -/
theorem qualityKeys_eq :
    qualityKeys = ["maj7", "maj9", "sus4", "sus2", "add9", "maj", "min", "dim",
      "aug", "m7", "m9", "m", "7", "9"] := by decide

/-- qualityKeys is sorted by descending length. -/
theorem qualityKeys_sorted :
    qualityKeys.Pairwise (fun a b => b.length ≤ a.length) := by
  rw [qualityKeys_eq]; decide

/-- qualityKeys holds the same keys as the CHORD_SHAPES table. -/
theorem qualityKeys_perm : qualityKeys.Perm (CHORD_SHAPES.map Prod.fst) := by
  rw [qualityKeys_eq]; decide

/-- A string is a prefix of itself under the startsWith model. -/
theorem strStartsWith_self (s : String) : strStartsWith s s = true := by
  simp [strStartsWith, List.isPrefixOf_iff_prefix]

/-- The matching test of the quality scan holds exactly at prefixes. -/
theorem scanPred_iff (quality k : String) :
    (quality == k || strStartsWith quality k) = true ↔ strStartsWith quality k = true := by
  constructor
  · intro h
    rcases Bool.or_eq_true_iff.mp h with h | h
    · exact (beq_iff_eq.mp h) ▸ strStartsWith_self quality
    · exact h
  · intro h; simp [h]

/-!
## C4 — longest-suffix-table match for chord qualities
-/

/-- C4: chord-quality lookup prefers the longest matching table key:
for every quality string, either some table key is a prefix of the
quality and the chosen interval set is the one of a matching key of
maximal length, or no key matches and the result is the major triad
[0, 4, 7]; an empty quality also yields [0, 4, 7]. -/
theorem chordIntervals_longest_match (quality : String) :
    (∃ k v, (k, v) ∈ CHORD_SHAPES ∧ strStartsWith quality k = true ∧
        chordIntervals quality = v ∧
        ∀ pr2 ∈ CHORD_SHAPES, strStartsWith quality pr2.1 = true →
          pr2.1.length ≤ k.length) ∨
    ((∀ pr2 ∈ CHORD_SHAPES, ¬ strStartsWith quality pr2.1 = true) ∧
        chordIntervals quality = [0, 4, 7]) := by
  by_cases hm : (quality == "m" || quality == "min") = true
  · left
    rcases Bool.or_eq_true_iff.mp hm with h | h
    · rw [beq_iff_eq.mp h]
      refine ⟨"m", [0, 3, 7], by decide, by decide, by decide, ?_⟩
      intro pr2 hpr2 hsw
      fin_cases hpr2 <;> revert hsw <;> decide
    · rw [beq_iff_eq.mp h]
      refine ⟨"min", [0, 3, 7], by decide, by decide, by decide, ?_⟩
      intro pr2 hpr2 hsw
      fin_cases hpr2 <;> revert hsw <;> decide
  · cases hfind : qualityKeys.find? (fun k => quality == k || strStartsWith quality k) with
    | none =>
        right
        have hnone := List.find?_eq_none.mp hfind
        constructor
        · intro pr2 hpr2 hsw
          have hmem : pr2.1 ∈ qualityKeys :=
            qualityKeys_perm.mem_iff.mpr (List.mem_map_of_mem Prod.fst hpr2)
          exact hnone pr2.1 hmem ((scanPred_iff quality pr2.1).mpr hsw)
        · simp only [chordIntervals, hfind, hm]
          decide
    | some k =>
        left
        obtain ⟨hpk, hmax⟩ := find?_sorted_len_max qualityKeys_sorted hfind
        have hkmem : k ∈ qualityKeys := List.mem_of_find?_eq_some hfind
        have hres : chordIntervals quality = (CHORD_SHAPES.lookup k).getD [0, 4, 7] := by
          simp only [chordIntervals, hfind, hm]
          rfl
        have hksw : strStartsWith quality k = true := (scanPred_iff quality k).mp hpk
        have hmax2 : ∀ pr2 ∈ CHORD_SHAPES, strStartsWith quality pr2.1 = true →
            pr2.1.length ≤ k.length := by
          intro pr2 hpr2 hsw
          have hmem : pr2.1 ∈ qualityKeys :=
            qualityKeys_perm.mem_iff.mpr (List.mem_map_of_mem Prod.fst hpr2)
          exact hmax pr2.1 hmem ((scanPred_iff quality pr2.1).mpr hsw)
        rw [qualityKeys_eq] at hkmem
        fin_cases hkmem <;> refine ⟨_, _, ?_, hksw, hres, hmax2⟩ <;> decide

/-!
## C5 — chord resolution: root is the minimum frequency
-/

/-- Every interval list chordIntervals can return is non-empty and
contains the semitone offset 0. -/
theorem chordIntervals_zero_mem (q : String) :
    chordIntervals q ≠ [] ∧ 0 ∈ chordIntervals q := by
  by_cases hm : (q == "m" || q == "min") = true
  · simp only [chordIntervals, hm, if_true]
    decide
  · cases hfind : qualityKeys.find? (fun k => q == k || strStartsWith q k) with
    | none =>
        simp only [chordIntervals, hfind]
        rw [if_neg hm]
        decide
    | some k =>
        have hkmem := List.mem_of_find?_eq_some hfind
        rw [qualityKeys_eq] at hkmem
        simp only [chordIntervals, hfind]
        rw [if_neg hm]
        fin_cases hkmem <;> decide

/-- A successful lookup in an association list returns one of its
values. -/
theorem lookup_mem_values {l : List (String × ℚ)} {k : String} {v : ℚ}
    (h : l.lookup k = some v) : v ∈ l.map Prod.snd := by
  induction l with
  | nil => simp [List.lookup] at h
  | cons a l ih =>
      rw [show a = (a.1, a.2) from rfl, List.lookup_cons] at h
      by_cases hk : (k == a.1) = true
      · simp only [hk] at h
        cases h
        simp
      · rw [Bool.not_eq_true] at hk
        simp only [hk] at h
        simpa using Or.inr (ih h)

/-- Every frequency of the NOTES table is positive. -/
theorem NOTES_lookup_pos {k : String} {v : ℚ} (h : NOTES.lookup k = some v) :
    0 < v := by
  have hv := lookup_mem_values h
  simp only [NOTES] at hv
  fin_cases hv <;> norm_num

/-- One equal-tempered scaling factor is at least one. -/
theorem one_le_semitone_factor (s : ℕ) : (1 : ℝ) ≤ (2 : ℝ) ^ ((s : ℝ) / 12) := by
  rw [show ((1 : ℝ) = (2 : ℝ) ^ (0 : ℝ)) from (Real.rpow_zero 2).symm]
  exact Real.rpow_le_rpow_of_exponent_le (by norm_num) (by positivity)

/-- C5 (amended): for every chord symbol whose root (an A-G letter plus
optional accidental) has an entry in the NOTES table — every such
spelling except the absent "Fb" — resolution returns a non-empty
frequency list that contains the root's tabulated frequency, has it as
its minimum, and consists of values root * 2^(semitone/12) for the
semitones of the chosen interval set. -/
theorem getChordFrequenciesR_root_min (chordName root q : String) (f : ℚ)
    (hparse : parseRoot chordName = some (root, q))
    (hroot : NOTES.lookup root = some f) :
    getChordFrequenciesR chordName ≠ [] ∧
    (f : ℝ) ∈ getChordFrequenciesR chordName ∧
    (∀ x ∈ getChordFrequenciesR chordName, (f : ℝ) ≤ x) ∧
    (∀ x ∈ getChordFrequenciesR chordName,
        ∃ s ∈ chordIntervals (if q == "" then "maj" else q),
          x = (f : ℝ) * (2 : ℝ) ^ ((s : ℝ) / 12)) := by
  have hL : getChordFrequencies chordName =
      (chordIntervals (if q == "" then "maj" else q)).map (fun s => (f, s)) := by
    simp only [getChordFrequencies, hparse, hroot]
  obtain ⟨hne, hzero⟩ := chordIntervals_zero_mem (if q == "" then "maj" else q)
  have hfpos : (0 : ℝ) < (f : ℝ) := by exact_mod_cast NOTES_lookup_pos hroot
  refine ⟨?_, ?_, ?_, ?_⟩
  · simp only [getChordFrequenciesR, hL]
    simpa using hne
  · simp only [getChordFrequenciesR, hL, List.map_map, List.mem_map]
    refine ⟨0, hzero, ?_⟩
    simp [freqVal, Real.rpow_zero]
  · intro x hx
    simp only [getChordFrequenciesR, hL, List.map_map, List.mem_map] at hx
    obtain ⟨s, _, rfl⟩ := hx
    simp only [Function.comp, freqVal]
    exact le_mul_of_one_le_right hfpos.le (one_le_semitone_factor s)
  · intro x hx
    simp only [getChordFrequenciesR, hL, List.map_map, List.mem_map] at hx
    obtain ⟨s, hs, rfl⟩ := hx
    exact ⟨s, hs, rfl⟩

/-- C5 counterexample: "Fb" matches the root pattern (letter F,
accidental b) yet resolves to the empty list, because the NOTES table
has no "Fb" entry. -/
theorem getChordFrequenciesR_Fb_empty :
    parseRoot "Fb" = some ("Fb", "") ∧ getChordFrequenciesR "Fb" = [] := by
  constructor
  · decide
  · have h : getChordFrequencies "Fb" = [] := by decide
    simp [getChordFrequenciesR, h]

/-- C5 witness: the theorem applied to the chord symbol "Am". -/
theorem getChordFrequenciesR_root_min_witness :
    parseRoot "Am" = some ("A", "m") ∧ NOTES.lookup "A" = some 440.00 ∧
    (((440.00 : ℚ) : ℝ) ∈ getChordFrequenciesR "Am" ∧
      ∀ x ∈ getChordFrequenciesR "Am", ((440.00 : ℚ) : ℝ) ≤ x) := by
  have h1 : parseRoot "Am" = some ("A", "m") := by decide
  have h2 : NOTES.lookup "A" = some 440.00 := by
    simp [NOTES, List.lookup]
  have h := getChordFrequenciesR_root_min "Am" "A" "m" 440.00 h1 h2
  exact ⟨h1, h2, h.2.1, h.2.2.1⟩

/-!
## C9 — tempo parsing and the BPM fallbacks
-/

/-- A digit character is not whitespace. -/
theorem isDigit_not_whitespace {c : Char} (h : c.isDigit = true) :
    c.isWhitespace = false := by
  simp only [Char.isDigit, Bool.and_eq_true, decide_eq_true_eq] at h
  simp only [Char.isWhitespace, Bool.or_eq_false_iff, decide_eq_false_iff_not]
  obtain ⟨h1, h2⟩ := h
  refine ⟨⟨⟨?_, ?_⟩, ?_⟩, ?_⟩ <;> intro hc <;> subst hc <;> simp_all

/-- A digit character is neither a minus nor a plus sign. -/
theorem isDigit_not_sign {c : Char} (h : c.isDigit = true) :
    (c == '-') = false ∧ (c == '+') = false := by
  simp only [Char.isDigit, Bool.and_eq_true, decide_eq_true_eq] at h
  constructor <;>
    (rw [Bool.eq_false_iff]; intro hc; rw [beq_iff_eq] at hc; subst hc; simp_all)

/-- firstDigitRun finds nothing in a digit-free list. -/
theorem firstDigitRun_eq_none {cs : List Char} (h : ∀ c ∈ cs, c.isDigit = false) :
    firstDigitRun cs = none := by
  induction cs with
  | nil => rfl
  | cons a l ih =>
      simp only [firstDigitRun, h a (List.mem_cons_self a l), Bool.false_eq_true,
        if_false]
      exact ih (fun c hc => h c (List.mem_cons_of_mem a hc))

/-- takeWhile over a satisfying run followed by a failing head takes
exactly the run. -/
theorem takeWhile_run {p : Char → Bool} {ds post : List Char}
    (hds : ∀ c ∈ ds, p c = true) (hpost : ∀ c, post.head? = some c → p c = false) :
    (ds ++ post).takeWhile p = ds := by
  induction ds with
  | nil =>
      cases post with
      | nil => rfl
      | cons b l => simp [List.takeWhile_cons, hpost b rfl]
  | cons a l ih =>
      simp only [List.cons_append, List.takeWhile_cons,
        hds a (List.mem_cons_self a l), if_true]
      rw [ih (fun c hc => hds c (List.mem_cons_of_mem a hc))]

/-- firstDigitRun returns the first maximal digit run. -/
theorem firstDigitRun_append {pre run post : List Char}
    (hpre : ∀ c ∈ pre, c.isDigit = false) (hrun : run ≠ [])
    (hdig : ∀ c ∈ run, c.isDigit = true)
    (hpost : ∀ c, post.head? = some c → c.isDigit = false) :
    firstDigitRun (pre ++ run ++ post) = some run := by
  induction pre with
  | nil =>
      cases run with
      | nil => exact absurd rfl hrun
      | cons d ds =>
          simp only [List.nil_append, List.cons_append, firstDigitRun,
            hdig d (List.mem_cons_self d ds), if_true, List.append_eq]
          rw [takeWhile_run (fun c hc => hdig c (List.mem_cons_of_mem d hc)) hpost]
  | cons a l ih =>
      simp only [List.cons_append, firstDigitRun, hpre a (List.mem_cons_self a l),
        Bool.false_eq_true, if_false]
      exact ih (fun c hc => hpre c (List.mem_cons_of_mem a hc))

/-- C9 (amended): the two engines parse tempo differently.  When the
tempo has no digits at all, the services player falls back to 100 BPM
and the part_000 renderer to 90.  The services player takes the first
maximal digit run appearing anywhere in the string; the part_000
renderer takes a leading digit run, and treats a parsed value of 0
like a missing one, falling back to 90 (JS `parseInt(t) || 90`). -/
theorem tempo_parsing_characterization :
    (∀ t : String, (∀ c ∈ t.data, c.isDigit = false) →
        parseTempoSvc t = 100 ∧ parseTempoP0 t = 90) ∧
    (∀ pre run post : List Char, (∀ c ∈ pre, c.isDigit = false) → run ≠ [] →
        (∀ c ∈ run, c.isDigit = true) →
        (∀ c, post.head? = some c → c.isDigit = false) →
        parseTempoSvc (String.mk (pre ++ run ++ post)) = digitsVal run) ∧
    (∀ run post : List Char, run ≠ [] → (∀ c ∈ run, c.isDigit = true) →
        (∀ c, post.head? = some c → c.isDigit = false) →
        parseTempoP0 (String.mk (run ++ post)) =
          if digitsVal run = 0 then 90 else (digitsVal run : ℚ)) := by
  refine ⟨?_, ?_, ?_⟩
  · intro t ht
    constructor
    · simp only [parseTempoSvc, firstDigitRun_eq_none ht]
    · have hcs : ∀ c ∈ t.data.dropWhile Char.isWhitespace, c.isDigit = false :=
        fun c hc => ht c ((List.dropWhile_sublist _).mem hc)
      simp only [parseTempoP0, jsParseInt]
      cases hd : t.data.dropWhile Char.isWhitespace with
      | nil => simp
      | cons c rest =>
          have hcd : c.isDigit = false := hcs c (by rw [hd]; exact List.mem_cons_self c rest)
          have hrest : ∀ x ∈ rest, x.isDigit = false :=
            fun x hx => hcs x (by rw [hd]; exact List.mem_cons_of_mem c hx)
          by_cases hminus : (c == '-') = true
          · simp only [hd, hminus, if_true]
            cases rest with
            | nil => simp
            | cons c2 r2 =>
                simp [List.takeWhile_cons, hrest c2 (List.mem_cons_self c2 r2)]
          · by_cases hplus : (c == '+') = true
            · simp only [hd, hminus, hplus, if_true, if_false, Bool.false_eq_true]
              cases rest with
              | nil => simp
              | cons c2 r2 =>
                  simp [List.takeWhile_cons, hrest c2 (List.mem_cons_self c2 r2)]
            · simp only [hd, hminus, hplus, Bool.false_eq_true, if_false]
              simp [List.takeWhile_cons, hcd]
  · intro pre run post hpre hrun hdig hpost
    simp only [parseTempoSvc]
    rw [firstDigitRun_append hpre hrun hdig hpost]
  · intro run post hrun hdig hpost
    cases run with
    | nil => exact absurd rfl hrun
    | cons d ds =>
        have hd : d.isDigit = true := hdig d (List.mem_cons_self d ds)
        have hdw : d.isWhitespace = false := isDigit_not_whitespace hd
        obtain ⟨hm, hp⟩ := isDigit_not_sign hd
        have hdrop : List.dropWhile Char.isWhitespace (d :: (ds ++ post)) =
            d :: (ds ++ post) := by
          rw [List.dropWhile_cons]
          simp [hdw]
        simp only [parseTempoP0, jsParseInt, List.cons_append, hdrop, hm, hp,
          Bool.false_eq_true, if_false]
        rw [← List.cons_append, takeWhile_run hdig hpost]
        simp only [List.isEmpty_cons, one_mul]
        by_cases hz : digitsVal (d :: ds) = 0
        · simp [hz]
        · have : ((digitsVal (d :: ds) : ℤ) == 0) = false := by
            simp [hz]
          simp [this, hz]

/-- C9 counterexample: the services player resolves "Fast 120" — a
tempo with no leading integer — to 120 rather than the default, and
the part_000 renderer resolves "0" — a tempo with leading integer 0 —
to the 90 fallback rather than to 0. -/
theorem tempo_parsing_cex :
    parseTempoSvc "Fast 120" = 120 ∧ parseTempoP0 "0" = 90 := by
  constructor <;> decide

/-!
## C8 — stopAudio is idempotent and leaves no active voices
-/

/-- Looking a key up through the key-preserving per-node update of
stopAudio. -/
theorem lookup_map_stop {reg : List ℕ} :
    ∀ {l : List (ℕ × NodeRec)} {i : ℕ} {n : NodeRec}, l.lookup i = some n →
      (l.map (fun p => if p.1 ∈ reg then (p.1, stopNode p.2) else p)).lookup i =
        some (if i ∈ reg then stopNode n else n) := by
  intro l
  induction l with
  | nil => intro i n h; simp [List.lookup] at h
  | cons a l ih =>
      obtain ⟨a1, a2⟩ := a
      intro i n h
      rw [List.lookup_cons] at h
      by_cases hk : (i == a1) = true
      · simp only [hk] at h
        cases h
        have hi : i = a1 := beq_iff_eq.mp hk
        by_cases hr : a1 ∈ reg
        · simp only [List.map_cons, if_pos hr, List.lookup_cons, hk]
          rw [hi, if_pos hr]
        · simp only [List.map_cons, if_neg hr, List.lookup_cons, hk]
          rw [hi, if_neg hr]
      · rw [Bool.not_eq_true] at hk
        simp only [hk] at h
        by_cases hr : a1 ∈ reg
        · simp only [List.map_cons, if_pos hr, List.lookup_cons, hk]
          exact ih h
        · simp only [List.map_cons, if_neg hr, List.lookup_cons, hk]
          exact ih h

/-- C8: stopAudio is idempotent and safe in any engine state: it
empties the activeNodes registry, running it twice equals running it
once, every registered node is put through stopNode, and stopNode
disconnects a node and stops it when it is a source. -/
theorem stopAudioNodes_idempotent_clean (s : EngineState) :
    (stopAudioNodes s).activeNodes = [] ∧
    stopAudioNodes (stopAudioNodes s) = stopAudioNodes s ∧
    (∀ i ∈ s.activeNodes, ∀ n : NodeRec, s.store.lookup i = some n →
      (stopAudioNodes s).store.lookup i = some (stopNode n)) ∧
    (∀ n : NodeRec, (stopNode n).connected = false ∧
      (n.isSource = true → (stopNode n).stopped = true)) := by
  refine ⟨rfl, ?_, ?_, ?_⟩
  · show ({ store := _, activeNodes := [] } : EngineState) = { store := _, activeNodes := [] }
    simp only [EngineState.mk.injEq, and_true]
    rw [stopAudioNodes, List.map_map]
    apply List.map_congr_left
    intro p _
    simp [stopAudioNodes]
  · intro i hi n hn
    rw [stopAudioNodes]
    rw [lookup_map_stop hn]
    rw [if_pos hi]
  · intro n
    refine ⟨rfl, ?_⟩
    intro h
    simp [stopNode, h]

/-!
## Trace decomposition helpers
-/

/-- Folding over a flattened list is the nested fold. -/
theorem foldl_flatMap {α β γ : Type} (f : γ → β → γ) (g : α → List β) :
    ∀ (l : List α) (init : γ),
      (l.flatMap g).foldl f init = l.foldl (fun acc a => (g a).foldl f acc) init := by
  intro l
  induction l with
  | nil => intro init; simp
  | cons a l ih => intro init; simp [List.flatMap_cons, List.foldl_append, ih]

/-- The nested section/line/chord walk of playSongDemo is the flat walk
over the song's chord slots. -/
theorem playSongDemoTrace_eq_slotsWalk (song : Song) (st : ℚ) (rand : ℕ → ℚ) :
    playSongDemoTrace song st rand =
      slotsWalk song.genre (parseTempoSvc song.tempo) rand ([], st, 0)
        (songSlots song ((60 / parseTempoSvc song.tempo) * 4)) := by
  simp only [playSongDemoTrace, slotsWalk, songSlots, foldl_flatMap, List.foldl_map]
  congr 1

/-- The cursor of the flat walk advances by the sum of the slot
durations, resolvable or not. -/
theorem slotsWalk_cursor (genre : SongGenre) (bpm : ℚ) (rand : ℕ → ℚ) :
    ∀ (slots : List (SongSectionType × String × ℚ)) (acc : WalkState),
      (slotsWalk genre bpm rand acc slots).2.1 =
        acc.2.1 + (slots.map (fun sl => sl.2.2)).sum := by
  intro slots
  induction slots with
  | nil => intro acc; simp [slotsWalk]
  | cons sl rest ih =>
      intro acc
      rw [show slotsWalk genre bpm rand acc (sl :: rest) =
        slotsWalk genre bpm rand (slotStep genre sl.1 bpm sl.2.2 rand acc sl.2.1) rest from rfl]
      rw [ih]
      simp only [slotStep, List.map_cons, List.sum_cons]
      ring

/-!
## C6 — unresolvable chords: silence, but the cursor still advances
-/

/-- C6: the returned duration of the playSongDemo walk is the sum of
all slot durations, whatever the chord symbols resolve to; and a slot
whose symbol yields no frequencies schedules no voices — the walk state
keeps its events and random position and only the cursor moves, by
exactly the slot's allotted duration. -/
theorem cursor_advance_independent_of_resolution :
    (∀ (song : Song) (st : ℚ) (rand : ℕ → ℚ),
        (playSongDemoTrace song st rand).2.1 =
          st + ((songSlots song ((60 / parseTempoSvc song.tempo) * 4)).map
            (fun sl => sl.2.2)).sum) ∧
    (∀ (genre : SongGenre) (stype : SongSectionType) (bpm d : ℚ) (rand : ℕ → ℚ)
        (acc : WalkState) (c : String), getChordFrequencies c = [] →
        slotStep genre stype bpm d rand acc c = (acc.1, acc.2.1 + d, acc.2.2)) := by
  constructor
  · intro song st rand
    rw [playSongDemoTrace_eq_slotsWalk, slotsWalk_cursor]
  · intro genre stype bpm d rand acc c hc
    simp [slotStep, hc]

/-- The routing discipline of the claim: drum voices (kick, snare,
hi-hat, woodblock) go straight to the compressor stage, while the
crash goes to the sidechain-ducked music bus. -/
def drumRoutingOk (ev : Ev) : Prop :=
  ((ev.kind = EvKind.kick ∨ ev.kind = EvKind.snare ∨ ev.kind = EvKind.hihat ∨
      ev.kind = EvKind.woodblock) → ev.dest = Dest.masterCompressor) ∧
  (ev.kind = EvKind.crash → ev.dest = Dest.musicBus)

/-- Master per-bar fact: every voice of one bar iteration starts no
earlier than the bar start, obeys the routing discipline, and no bar
body ever emits a crash. -/
theorem barEvents_mem_spec {genre : SongGenre} {st : SongSectionType}
    {freqs : List (ℚ × ℕ)} {t bd : ℚ} {rand : ℕ → ℚ} {ri : ℕ}
    (hbd : 0 ≤ bd) (hrand : ∀ n, 0 ≤ rand n) :
    ∀ ev ∈ (barEvents genre st freqs t bd rand ri).1,
      t ≤ ev.time ∧ drumRoutingOk ev ∧ ev.kind ≠ EvKind.crash := by
  intro ev hev
  have hhat : (0 : ℚ) ≤ (hatDiv st : ℚ) := by positivity
  cases genre with
  | pop =>
      by_cases hch : (st == SongSectionType.chorus) = true <;>
        simp only [barEvents, hch, List.mem_append, List.mem_cons, List.mem_map,
          List.mem_range, List.mem_flatMap, List.not_mem_nil, or_false, false_or,
          beq_self_eq_true, Bool.true_and, if_true, Bool.false_eq_true, if_false,
          show (SongGenre.pop == SongGenre.country) = false from rfl] at hev
      · rcases hev with ((((h | h | h | h) | ⟨i, hi, h⟩) | ⟨i, hi, h⟩) |
          ⟨f, hf, h | h⟩) | ⟨i, hi, h⟩ <;> subst h
        · exact ⟨le_refl _, by simp [drumRoutingOk], by simp⟩
        · exact ⟨by simp only; linarith, by simp [drumRoutingOk], by simp⟩
        · exact ⟨by simp only; linarith, by simp [drumRoutingOk], by simp⟩
        · exact ⟨by simp only; linarith, by simp [drumRoutingOk], by simp⟩
        · have := mul_nonneg (div_nonneg hbd hhat) (Nat.cast_nonneg (α := ℚ) i)
          exact ⟨by simp only; linarith, by simp [drumRoutingOk], by simp⟩
        · have := mul_nonneg (div_nonneg hbd (by norm_num : (0:ℚ) ≤ 2))
            (Nat.cast_nonneg (α := ℚ) i)
          exact ⟨by simp only; linarith, by simp [drumRoutingOk], by simp⟩
        · exact ⟨le_refl _, by simp [drumRoutingOk], by simp⟩
        · exact ⟨le_refl _, by simp [drumRoutingOk], by simp⟩
        · have := mul_nonneg (div_nonneg hbd (by norm_num : (0:ℚ) ≤ 4))
            (Nat.cast_nonneg (α := ℚ) i)
          exact ⟨by simp only; linarith, by simp [drumRoutingOk], by simp⟩
      · rcases hev with (((h | h | h | h) | ⟨i, hi, h⟩) | ⟨i, hi, h⟩) |
          ⟨f, hf, h | h⟩ <;> subst h
        · exact ⟨le_refl _, by simp [drumRoutingOk], by simp⟩
        · exact ⟨by simp only; linarith, by simp [drumRoutingOk], by simp⟩
        · exact ⟨by simp only; linarith, by simp [drumRoutingOk], by simp⟩
        · exact ⟨by simp only; linarith, by simp [drumRoutingOk], by simp⟩
        · have := mul_nonneg (div_nonneg hbd hhat) (Nat.cast_nonneg (α := ℚ) i)
          exact ⟨by simp only; linarith, by simp [drumRoutingOk], by simp⟩
        · have := mul_nonneg (div_nonneg hbd (by norm_num : (0:ℚ) ≤ 2))
            (Nat.cast_nonneg (α := ℚ) i)
          exact ⟨by simp only; linarith, by simp [drumRoutingOk], by simp⟩
        · exact ⟨le_refl _, by simp [drumRoutingOk], by simp⟩
        · exact ⟨le_refl _, by simp [drumRoutingOk], by simp⟩
  | rnb =>
      simp only [barEvents, List.mem_append, List.mem_cons, List.mem_map,
        List.mem_range, List.mem_flatMap, List.not_mem_nil, or_false, false_or,
        Bool.false_and, Bool.false_eq_true, if_false,
        show (SongGenre.rnb == SongGenre.pop) = false from rfl,
        show (SongGenre.rnb == SongGenre.country) = false from rfl] at hev
      rcases hev with ((h | h | h | h | h) | ⟨i, hi, h⟩) | ⟨f, hf, h | h⟩ <;> subst h
      · exact ⟨le_refl _, by simp [drumRoutingOk], by simp⟩
      · exact ⟨by simp only; linarith, by simp [drumRoutingOk], by simp⟩
      · exact ⟨by simp only; nlinarith, by simp [drumRoutingOk], by simp⟩
      · exact ⟨le_refl _, by simp [drumRoutingOk], by simp⟩
      · exact ⟨by simp only; nlinarith, by simp [drumRoutingOk], by simp⟩
      · have := mul_nonneg (div_nonneg hbd (by norm_num : (0:ℚ) ≤ 2))
          (Nat.cast_nonneg (α := ℚ) i)
        exact ⟨by simp only; linarith, by simp [drumRoutingOk], by simp⟩
      · exact ⟨le_refl _, by simp [drumRoutingOk], by simp⟩
      · exact ⟨le_refl _, by simp [drumRoutingOk], by simp⟩
  | country =>
      simp only [barEvents, List.mem_append, List.mem_cons, List.mem_map,
        List.mem_range, List.mem_flatMap, List.not_mem_nil, or_false, false_or,
        Bool.false_and, Bool.false_eq_true, if_false, beq_self_eq_true, if_true,
        show (SongGenre.country == SongGenre.pop) = false from rfl] at hev
      rcases hev with ((h | h | h | h | h | h) | ⟨f, hf, h | h⟩) |
        ⟨fi, hfi, h⟩ | ⟨fi, hfi, h⟩ <;> subst h
      · exact ⟨le_refl _, by simp [drumRoutingOk], by simp⟩
      · exact ⟨by simp only; linarith, by simp [drumRoutingOk], by simp⟩
      · exact ⟨by simp only; linarith, by simp [drumRoutingOk], by simp⟩
      · exact ⟨by simp only; linarith, by simp [drumRoutingOk], by simp⟩
      · exact ⟨le_refl _, by simp [drumRoutingOk], by simp⟩
      · exact ⟨by simp only; linarith, by simp [drumRoutingOk], by simp⟩
      · exact ⟨le_refl _, by simp [drumRoutingOk], by simp⟩
      · exact ⟨le_refl _, by simp [drumRoutingOk], by simp⟩
      · have := mul_nonneg (Nat.cast_nonneg (α := ℚ) fi.1)
          (by norm_num : (0:ℚ) ≤ 3/100)
        exact ⟨by simp only; linarith, by simp [drumRoutingOk], by simp⟩
      · have := mul_nonneg (Nat.cast_nonneg (α := ℚ) fi.1)
          (by norm_num : (0:ℚ) ≤ 3/100)
        exact ⟨by simp only; linarith, by simp [drumRoutingOk], by simp⟩
  | chinese =>
      have hw : (0 : ℚ) ≤ bd * (rand (ri + 1) * 4) :=
        mul_nonneg hbd (mul_nonneg (hrand (ri + 1)) (by norm_num))
      by_cases hch : (st == SongSectionType.chorus) = true <;>
        by_cases hwood : rand ri > 3/5 <;>
        simp only [barEvents, hch, hwood, List.mem_append, List.mem_cons, List.mem_map,
          List.mem_range, List.mem_flatMap, List.not_mem_nil, or_false, false_or,
          Bool.false_and, Bool.false_eq_true, if_false, if_true, beq_self_eq_true,
          show (SongGenre.chinese == SongGenre.pop) = false from rfl,
          show (SongGenre.chinese == SongGenre.country) = false from rfl] at hev
      · rcases hev with ((h | h) | h) | ⟨f, hf, h | h⟩ <;> subst h <;>
          exact ⟨by simp only; linarith, by simp [drumRoutingOk], by simp⟩
      · rcases hev with (h | h) | ⟨f, hf, h | h⟩ <;> subst h <;>
          exact ⟨by simp only; linarith, by simp [drumRoutingOk], by simp⟩
      · rcases hev with (h | h) | ⟨f, hf, h | h⟩ <;> subst h <;>
          exact ⟨by simp only; linarith, by simp [drumRoutingOk], by simp⟩
      · rcases hev with h | ⟨f, hf, h | h⟩ <;> subst h <;>
          exact ⟨by simp only; linarith, by simp [drumRoutingOk], by simp⟩

/-- A property preserved by every bar body holds of everything the bar
loop of playArrangement emits. -/
theorem barsFold_spec (genre : SongGenre) (st : SongSectionType) (freqs : List (ℚ × ℕ))
    (bd barDur : ℚ) (rand : ℕ → ℚ) (t0 : ℚ) (P : Ev → Prop)
    (hbar : ∀ (tb : ℚ) (ri2 : ℕ), t0 ≤ tb →
      ∀ ev ∈ (barEvents genre st freqs tb bd rand ri2).1, P ev)
    (hbarDur : 0 ≤ barDur) :
    ∀ (N : ℕ) (acc : List Ev × ℕ), (∀ ev ∈ acc.1, P ev) →
      ∀ ev ∈ ((List.range N).foldl (fun (a : List Ev × ℕ) (i : ℕ) =>
          (a.1 ++ (barEvents genre st freqs (t0 + (i : ℚ) * barDur) bd rand a.2).1,
           (barEvents genre st freqs (t0 + (i : ℚ) * barDur) bd rand a.2).2)) acc).1,
        P ev := by
  intro N
  induction N with
  | zero => intro acc hacc; simpa using hacc
  | succ n ih =>
      intro acc hacc ev hev
      rw [List.range_succ, List.foldl_append, List.foldl_cons, List.foldl_nil] at hev
      rcases List.mem_append.mp hev with h | h
      · exact ih acc hacc ev h
      · refine hbar (t0 + (n : ℚ) * barDur) _ ?_ ev h
        have : (0 : ℚ) ≤ (n : ℚ) * barDur :=
          mul_nonneg (Nat.cast_nonneg n) hbarDur
        linarith

/-- Every voice playArrangement schedules starts no earlier than the
chord window's start, obeys the routing discipline, and the only crash
it can emit is the chorus-opening one: at the window start, into the
music bus. -/
theorem playArrangementEvents_spec {genre : SongGenre} {st : SongSectionType}
    {freqs : List (ℚ × ℕ)} {startTime duration bpm : ℚ} {rand : ℕ → ℚ} {ri : ℕ}
    (hbpm : 0 ≤ bpm) (hrand : ∀ n, 0 ≤ rand n) :
    ∀ ev ∈ (playArrangementEvents genre st freqs startTime duration bpm rand ri).1,
      startTime ≤ ev.time ∧ drumRoutingOk ev ∧
        (ev.kind = EvKind.crash →
          ev = ⟨EvKind.crash, startTime, Dest.musicBus, none⟩) := by
  have hbd : (0 : ℚ) ≤ 60 / bpm := div_nonneg (by norm_num) hbpm
  have hbarDur : (0 : ℚ) ≤ (60 / bpm) * 4 := by linarith
  intro ev hev
  simp only [playArrangementEvents, List.mem_append] at hev
  rcases hev with hev | hev
  · rcases List.mem_ite_nil_right.mp hev with ⟨_, hev⟩
    rcases List.mem_singleton.mp hev with rfl
    exact ⟨le_refl _, by simp [drumRoutingOk], fun _ => rfl⟩
  · have key := barsFold_spec genre st freqs (60 / bpm) ((60 / bpm) * 4) rand startTime
      (fun e => startTime ≤ e.time ∧ drumRoutingOk e ∧ e.kind ≠ EvKind.crash)
      (fun tb ri2 htb e he =>
        ⟨le_trans htb (barEvents_mem_spec hbd hrand e he).1,
         (barEvents_mem_spec hbd hrand e he).2.1,
         (barEvents_mem_spec hbd hrand e he).2.2⟩)
      hbarDur (numBars duration ((60 / bpm) * 4)) ([], ri) (by simp) ev hev
    exact ⟨key.1, key.2.1, fun hk => absurd hk key.2.2⟩

/-- A property of every playArrangement call's output holds of every
event of the flat walk. -/
theorem slotsWalk_mem {genre : SongGenre} {bpm : ℚ} {rand : ℕ → ℚ} (P : Ev → Prop)
    (harr : ∀ (st2 : SongSectionType) (freqs : List (ℚ × ℕ)) (t d : ℚ) (ri : ℕ),
      ∀ ev ∈ (playArrangementEvents genre st2 freqs t d bpm rand ri).1, P ev) :
    ∀ (slots : List (SongSectionType × String × ℚ)) (acc : WalkState),
      (∀ ev ∈ acc.1, P ev) → ∀ ev ∈ (slotsWalk genre bpm rand acc slots).1, P ev := by
  intro slots
  induction slots with
  | nil => intro acc hacc; simpa [slotsWalk] using hacc
  | cons sl rest ih =>
      intro acc hacc ev hev
      rw [show slotsWalk genre bpm rand acc (sl :: rest) =
        slotsWalk genre bpm rand (slotStep genre sl.1 bpm sl.2.2 rand acc sl.2.1) rest
        from rfl] at hev
      refine ih _ ?_ ev hev
      intro e he
      simp only [slotStep] at he
      by_cases hres : (getChordFrequencies sl.2.1).length > 0
      · rw [if_pos hres] at he
        rcases List.mem_append.mp he with h | h
        · exact hacc e h
        · exact harr sl.1 _ acc.2.1 sl.2.2 acc.2.2 e h
      · rw [if_neg hres] at he
        rcases List.mem_append.mp he with h | h
        · exact hacc e h
        · simp at h

/-- The services tempo parse is never negative. -/
theorem parseTempoSvc_nonneg (tempo : String) : 0 ≤ parseTempoSvc tempo := by
  rw [parseTempoSvc]
  cases firstDigitRun tempo.data with
  | none => norm_num
  | some ds => exact Nat.cast_nonneg _

/-!
## Concrete songs used by counterexamples and witnesses
-/

/-- A pop song with one Chorus section whose single chord line has four
chords, at 600 BPM (so each chord window is exactly 0.1 s and the bar
loop body never runs). -/
def popChorusSong : Song :=
  { title := "t", genre := SongGenre.pop, artistStyle := "s", tempo := "600",
    key := "C", description := "d", coverArt := none,
    sections := [{ type := SongSectionType.chorus, lyrics := ["l"],
                   chords := ["C C C C"] }] }

/-- A song with a single one-chord line, for the offline-duration
counterexample. -/
def oneChordSong : Song :=
  { title := "t", genre := SongGenre.pop, artistStyle := "s", tempo := "120",
    key := "C", description := "d", coverArt := none,
    sections := [{ type := SongSectionType.verse, lyrics := ["l"],
                   chords := ["C"] }] }

/-- A song whose single chord line has exactly four chords, for the
offline-duration witness. -/
def fourChordSong : Song :=
  { title := "t", genre := SongGenre.pop, artistStyle := "s", tempo := "120",
    key := "C", description := "d", coverArt := none,
    sections := [{ type := SongSectionType.verse, lyrics := ["l"],
                   chords := ["C G Am F"] }] }

/-!
## C2 — drum routing: kick/snare/hat to the compressor, crash to the bus
-/

/-- C2 (amended): every kick, snare, hi-hat and woodblock voice the
playSongDemo walk schedules is connected directly to the compressor
stage, but every crash voice is connected to the sidechain-ducked music
bus (so the crash, unlike the other drums, is ducked). -/
theorem playSongDemo_drum_routing (song : Song) (st : ℚ) (rand : ℕ → ℚ)
    (hrand : ∀ n, 0 ≤ rand n) :
    ∀ ev ∈ (playSongDemoTrace song st rand).1, drumRoutingOk ev := by
  rw [playSongDemoTrace_eq_slotsWalk]
  refine slotsWalk_mem drumRoutingOk ?_ _ _ (by simp)
  intro st2 freqs t d ri ev hev
  exact (playArrangementEvents_spec (parseTempoSvc_nonneg song.tempo) hrand ev hev).2.1

/-- C2 counterexample: the chorus-opening crash is routed to the music
bus, not to the compressor: at the pop chorus song the walk's crash
events all carry destination musicBus while the claim requires the
compressor for every drum trigger. -/
theorem crash_routed_to_music_bus_cex :
    ((playSongDemoTrace popChorusSong 0 (fun _ => 0)).1.filter
        (fun e => e.kind == EvKind.crash)).map (fun e => e.dest) =
      [Dest.musicBus, Dest.musicBus, Dest.musicBus, Dest.musicBus] := by
  have h1 : parseTempoSvc "600" = 600 := by decide
  have h2 : splitChordsSvc "C C C C" = ["C", "C", "C", "C"] := by decide
  have hp : parseRoot "C" = some ("C", "") := by decide
  have hi : chordIntervals "maj" = [0, 4, 7] := by decide
  have h3 : getChordFrequencies "C" = [(261.63, 0), (261.63, 4), (261.63, 7)] := by
    simp [getChordFrequencies, hp, hi, NOTES, List.lookup]
  norm_num [playSongDemoTrace, popChorusSong, h1, sectionStep, sectionChordLines,
    lineStep, h2, slotStep, h3, playArrangementEvents, numBars]

/-- C2 witness: the crash of the pop chorus song is in the trace and
satisfies the routing discipline. -/
theorem playSongDemo_drum_routing_witness :
    (⟨EvKind.crash, 0, Dest.musicBus, none⟩ : Ev) ∈
        (playSongDemoTrace popChorusSong 0 (fun _ => 0)).1 ∧
      drumRoutingOk ⟨EvKind.crash, 0, Dest.musicBus, none⟩ := by
  have h1 : parseTempoSvc "600" = 600 := by decide
  have h2 : splitChordsSvc "C C C C" = ["C", "C", "C", "C"] := by decide
  have hp : parseRoot "C" = some ("C", "") := by decide
  have hi : chordIntervals "maj" = [0, 4, 7] := by decide
  have h3 : getChordFrequencies "C" = [(261.63, 0), (261.63, 4), (261.63, 7)] := by
    simp [getChordFrequencies, hp, hi, NOTES, List.lookup]
  have hmem : (⟨EvKind.crash, 0, Dest.musicBus, none⟩ : Ev) ∈
      (playSongDemoTrace popChorusSong 0 (fun _ => 0)).1 := by
    norm_num [playSongDemoTrace, popChorusSong, h1, sectionStep, sectionChordLines,
      lineStep, h2, slotStep, h3, playArrangementEvents, numBars]
  exact ⟨hmem, playSongDemo_drum_routing popChorusSong 0 (fun _ => 0)
    (fun n => le_refl 0) _ hmem⟩

/-!
## C3 — pop chorus: crash per chord window, denser hats
-/

/-- A flatMap produces nothing that survives a filter when no piece
does. -/
theorem filter_flatMap_eq_nil {α : Type} (p : Ev → Bool) (g : α → List Ev)
    (l : List α) (h : ∀ a ∈ l, ∀ e ∈ g a, p e = false) :
    (l.flatMap g).filter p = [] :=
  List.filter_eq_nil_iff.mpr (fun e he => by
    rcases List.mem_flatMap.mp he with ⟨a, ha, hea⟩
    simp [h a ha e hea])

/-- The bar loop emits no crash, so filtering a playArrangement call
for crashes leaves exactly the chorus-opening one (or nothing outside
a chorus). -/
theorem playArrangement_crash_filter (genre : SongGenre) (st : SongSectionType)
    (freqs : List (ℚ × ℕ)) (t d bpm : ℚ) (rand : ℕ → ℚ) (ri : ℕ)
    (hbpm : 0 ≤ bpm) (hrand : ∀ n, 0 ≤ rand n) :
    ((playArrangementEvents genre st freqs t d bpm rand ri).1.filter
        (fun e => e.kind == EvKind.crash)) =
      if st == SongSectionType.chorus then [⟨EvKind.crash, t, Dest.musicBus, none⟩]
      else [] := by
  have hbd : (0 : ℚ) ≤ 60 / bpm := div_nonneg (by norm_num) hbpm
  have hbars : ∀ ev ∈ ((List.range (numBars d ((60 / bpm) * 4))).foldl
      (fun (acc : List Ev × ℕ) (i : ℕ) =>
        (acc.1 ++ (barEvents genre st freqs (t + (i : ℚ) * ((60 / bpm) * 4))
            (60 / bpm) rand acc.2).1,
         (barEvents genre st freqs (t + (i : ℚ) * ((60 / bpm) * 4))
            (60 / bpm) rand acc.2).2)) ([], ri)).1, ev.kind ≠ EvKind.crash := by
    refine barsFold_spec genre st freqs (60 / bpm) ((60 / bpm) * 4) rand t
      (fun e => e.kind ≠ EvKind.crash)
      (fun tb ri2 _ e he => (barEvents_mem_spec hbd hrand e he).2.2)
      (by linarith) _ ([], ri) (by simp)
  have hno : List.filter (fun e => e.kind == EvKind.crash)
      ((List.range (numBars d ((60 / bpm) * 4))).foldl
        (fun (acc : List Ev × ℕ) (i : ℕ) =>
          (acc.1 ++ (barEvents genre st freqs (t + (i : ℚ) * ((60 / bpm) * 4))
              (60 / bpm) rand acc.2).1,
           (barEvents genre st freqs (t + (i : ℚ) * ((60 / bpm) * 4))
              (60 / bpm) rand acc.2).2)) ([], ri)).1 = [] :=
    List.filter_eq_nil_iff.mpr
      (fun e he => by simpa using beq_eq_false_iff_ne.mpr (hbars e he))
  have habs : (decide (|t - t| < (1 : ℚ) / 10)) = true := by
    rw [sub_self, abs_zero]
    norm_num
  simp only [playArrangementEvents, List.filter_append, hno, List.append_nil]
  by_cases hch : (st == SongSectionType.chorus) = true
  · simp [hch, habs]
  · simp [hch]

/-- Every hi-hat the pop bar body schedules, counted: 4·hatDiv per bar
(the subdivision is hatDiv hits per beat over four beats). -/
theorem pop_bar_hat_count (st : SongSectionType) (freqs : List (ℚ × ℕ))
    (t bd : ℚ) (rand : ℕ → ℚ) (ri : ℕ) :
    ((barEvents SongGenre.pop st freqs t bd rand ri).1.filter
      (fun e => e.kind == EvKind.hihat)).length = 4 * hatDiv st := by
  have hharm : (freqs.flatMap (fun f =>
      [(⟨EvKind.note, t, Dest.musicBus, some f⟩ : Ev),
       ⟨EvKind.note, t, Dest.reverbNode, some f⟩])).filter
        (fun e => e.kind == EvKind.hihat) = [] :=
    filter_flatMap_eq_nil _ _ _ (fun f hf e he => by fin_cases he <;> rfl)
  by_cases hch : (st == SongSectionType.chorus) = true <;>
    simp only [barEvents, hch, if_true, Bool.true_and, Bool.false_eq_true, if_false,
      beq_self_eq_true, show (SongGenre.pop == SongGenre.country) = false from rfl,
      List.filter_append, hharm, List.filter_map, List.append_nil, List.nil_append] <;>
    simp [Function.comp_def, List.length_append,
      show (EvKind.note == EvKind.hihat) = false from rfl]

/-- C3 (amended): in genre pop, every playArrangement call for a
Chorus chord window schedules exactly one crash — at that window's
start, into the music bus — while a Verse window schedules none; so a
chorus section gets one crash per resolvable chord slot (the first at
the section's first window start), not one per section.  The chorus
hi-hat subdivision (hatDiv = 4, 16 hats per bar) is strictly denser
than the verse one (hatDiv = 2, 8 hats per bar). -/
theorem pop_chorus_crash_and_hats (freqs : List (ℚ × ℕ)) (t d bd bpm : ℚ)
    (rand : ℕ → ℚ) (ri : ℕ) (hbpm : 0 ≤ bpm) (hrand : ∀ n, 0 ≤ rand n) :
    ((playArrangementEvents SongGenre.pop SongSectionType.chorus freqs t d bpm
        rand ri).1.filter (fun e => e.kind == EvKind.crash)) =
      [⟨EvKind.crash, t, Dest.musicBus, none⟩] ∧
    ((playArrangementEvents SongGenre.pop SongSectionType.verse freqs t d bpm
        rand ri).1.filter (fun e => e.kind == EvKind.crash)) = [] ∧
    ((barEvents SongGenre.pop SongSectionType.chorus freqs t bd rand ri).1.filter
        (fun e => e.kind == EvKind.hihat)).length = 16 ∧
    ((barEvents SongGenre.pop SongSectionType.verse freqs t bd rand ri).1.filter
        (fun e => e.kind == EvKind.hihat)).length = 8 ∧
    hatDiv SongSectionType.chorus = 4 ∧ hatDiv SongSectionType.verse = 2 := by
  refine ⟨?_, ?_, ?_, ?_, rfl, rfl⟩
  · rw [playArrangement_crash_filter _ _ _ _ _ _ _ _ hbpm hrand]
    rfl
  · rw [playArrangement_crash_filter _ _ _ _ _ _ _ _ hbpm hrand]
    rfl
  · rw [pop_bar_hat_count]
    rfl
  · rw [pop_bar_hat_count]
    rfl

/-- C3 counterexample: the pop chorus song has one Chorus section with
four (resolvable) chord slots, and its walk schedules four crash
triggers, not exactly one. -/
theorem pop_chorus_multiple_crashes_cex :
    ((playSongDemoTrace popChorusSong 0 (fun _ => 0)).1.filter
        (fun e => e.kind == EvKind.crash)).length = 4 := by
  have h1 : parseTempoSvc "600" = 600 := by decide
  have h2 : splitChordsSvc "C C C C" = ["C", "C", "C", "C"] := by decide
  have hp : parseRoot "C" = some ("C", "") := by decide
  have hi : chordIntervals "maj" = [0, 4, 7] := by decide
  have h3 : getChordFrequencies "C" = [(261.63, 0), (261.63, 4), (261.63, 7)] := by
    simp [getChordFrequencies, hp, hi, NOTES, List.lookup]
  norm_num [playSongDemoTrace, popChorusSong, h1, sectionStep, sectionChordLines,
    lineStep, h2, slotStep, h3, playArrangementEvents, numBars]

/-- C3 witness: the amended statement applied at bpm 120 and the zero
random stream. -/
theorem pop_chorus_crash_and_hats_witness :
    ((playArrangementEvents SongGenre.pop SongSectionType.chorus [(440, 0)] 0 4 120
        (fun _ => 0) 0).1.filter (fun e => e.kind == EvKind.crash)) =
      [⟨EvKind.crash, 0, Dest.musicBus, none⟩] ∧
    hatDiv SongSectionType.chorus = 4 ∧ hatDiv SongSectionType.verse = 2 := by
  have h := pop_chorus_crash_and_hats [(440, 0)] 0 4 (1/2) 120 (fun _ => 0) 0
    (by norm_num) (fun n => le_refl 0)
  exact ⟨h.1, h.2.2.2.2⟩

/-!
## C7 — cursor monotonicity and no event before its window
-/

/-- The head of a scanl is its seed. -/
theorem scanl_add_head (l : List ℚ) (b : ℚ) :
    (l.scanl (· + ·) b).head? = some b := by
  cases l with
  | nil => rfl
  | cons x l => rfl

/-- A scanl of non-negative increments is non-decreasing. -/
theorem chain'_scanl_add (l : List ℚ) :
    ∀ (a : ℚ), (∀ x ∈ l, 0 ≤ x) → List.Chain' (· ≤ ·) (l.scanl (· + ·) a) := by
  induction l with
  | nil => intro a _; simp [List.scanl_nil]
  | cons x l ih =>
      intro a h
      rw [List.scanl_cons, List.singleton_append]
      rw [List.chain'_cons']
      constructor
      · intro y hy
        rw [scanl_add_head] at hy
        cases hy
        have := h x (List.mem_cons_self x l)
        linarith
      · exact ih (a + x) (fun z hz => h z (List.mem_cons_of_mem x hz))

/-- C7: with a positive BPM, every chord-slot duration of the walk is
positive and an exact fraction secondsPerBar / k of the bar (k ≥ 1 the
slot's line's chord count), the cursor sequence (the scanl of the slot
durations) is monotonically non-decreasing, and no voice of any
playArrangement call is scheduled before the cursor value at its chord
window's start. -/
theorem cursor_monotone_and_events_in_window (song : Song) (st : ℚ) (rand : ℕ → ℚ)
    (hbpm : 0 < parseTempoSvc song.tempo) (hrand : ∀ n, 0 ≤ rand n) :
    (∀ sl ∈ songSlots song ((60 / parseTempoSvc song.tempo) * 4),
        0 < sl.2.2 ∧ ∃ k : ℕ, 1 ≤ k ∧
          sl.2.2 = ((60 / parseTempoSvc song.tempo) * 4) / (k : ℚ)) ∧
    List.Chain' (· ≤ ·)
      (((songSlots song ((60 / parseTempoSvc song.tempo) * 4)).map
        (fun sl => sl.2.2)).scanl (· + ·) st) ∧
    (∀ (stype : SongSectionType) (freqs : List (ℚ × ℕ)) (t d : ℚ) (ri : ℕ),
      ∀ ev ∈ (playArrangementEvents song.genre stype freqs t d
          (parseTempoSvc song.tempo) rand ri).1, t ≤ ev.time) := by
  have hspb : (0 : ℚ) < (60 / parseTempoSvc song.tempo) * 4 :=
    mul_pos (div_pos (by norm_num) hbpm) (by norm_num)
  have hslot : ∀ sl ∈ songSlots song ((60 / parseTempoSvc song.tempo) * 4),
      0 < sl.2.2 ∧ ∃ k : ℕ, 1 ≤ k ∧
        sl.2.2 = ((60 / parseTempoSvc song.tempo) * 4) / (k : ℚ) := by
    intro sl hsl
    simp only [songSlots, List.mem_flatMap, List.mem_map] at hsl
    obtain ⟨sec, hsec, line, hline, c, hc, heq⟩ := hsl
    have hk : 1 ≤ (splitChordsSvc line).length :=
      List.length_pos.mpr (List.ne_nil_of_mem hc)
    have hif : (if (splitChordsSvc line).length = 0 then 1
        else (splitChordsSvc line).length) = (splitChordsSvc line).length :=
      if_neg (Nat.one_le_iff_ne_zero.mp hk)
    have hd : sl.2.2 = ((60 / parseTempoSvc song.tempo) * 4) /
        ((splitChordsSvc line).length : ℚ) := by
      rw [← heq]
      simp only [hif]
    refine ⟨?_, (splitChordsSvc line).length, hk, hd⟩
    rw [hd]
    exact div_pos hspb (by exact_mod_cast hk)
  refine ⟨hslot, ?_, ?_⟩
  · refine chain'_scanl_add _ st ?_
    intro x hx
    rcases List.mem_map.mp hx with ⟨sl, hsl, rfl⟩
    exact (hslot sl hsl).1.le
  · intro stype freqs t d ri ev hev
    exact (playArrangementEvents_spec hbpm.le hrand ev hev).1

/-- C7 witness: the theorem applied to the pop chorus song with the
zero random stream. -/
theorem cursor_monotone_and_events_in_window_witness :
    (0 : ℚ) < parseTempoSvc popChorusSong.tempo ∧
    List.Chain' (· ≤ ·)
      (((songSlots popChorusSong ((60 / parseTempoSvc popChorusSong.tempo) * 4)).map
        (fun sl => sl.2.2)).scanl (· + ·) 0) := by
  have hb : (0 : ℚ) < parseTempoSvc popChorusSong.tempo := by
    rw [show parseTempoSvc popChorusSong.tempo = 600 from by decide]
    norm_num
  exact ⟨hb, (cursor_monotone_and_events_in_window popChorusSong 0 (fun _ => 0) hb
    (fun n => le_refl 0)).2.1⟩

/-!
## C1 — offline render duration vs. the scheduler's cursor advance
-/

/-- Summing a flattened list is summing the per-piece sums. -/
theorem sum_flatMap {α : Type} (g : α → List ℚ) :
    ∀ l : List α, (l.flatMap g).sum = (l.map (fun a => (g a).sum)).sum := by
  intro l
  induction l with
  | nil => simp
  | cons a l ih => simp [List.flatMap_cons, List.sum_append, ih]

/-- The cursor effect of one chord line of renderMusicToContext. -/
theorem lineStepP0_cursor (barDur : ℚ) (line : String) :
    ∀ acc : List Ev × ℚ, (lineStepP0 barDur acc line).2 =
      acc.2 + ((splitChordsP0 line).length : ℚ) *
        (barDur / ((if (splitChordsP0 line).length = 0 then 1
          else (splitChordsP0 line).length : ℕ) : ℚ)) := by
  have aux : ∀ (dur : ℚ) (cs : List String) (acc : List Ev × ℚ),
      (cs.foldl (slotStepP0 dur) acc).2 = acc.2 + (cs.length : ℚ) * dur := by
    intro dur cs
    induction cs with
    | nil => intro acc; simp
    | cons c cs ih =>
        intro acc
        rw [List.foldl_cons, ih]
        simp only [slotStepP0, List.length_cons]
        push_cast
        ring
  intro acc
  simp only [lineStepP0]
  rw [aux]

/-- C1 (amended): the cursor of part_000's renderMusicToContext
advances by exactly the sum of the slot durations (each one bar
divided by its line's chord count), while renderSongToBlob sizes the
offline buffer from the analytic formula totalChords · (barDur/4) + 5;
the two agree — analytic duration = cursor advance + 5 s reverb tail —
exactly on songs all of whose non-empty chord lines hold four chords,
and not in general. -/
theorem offline_duration_vs_cursor (song : Song) (st : ℚ) :
    ((renderMusicTrace song st).2 =
        st + (p0SlotDurations song ((60 / parseTempoP0 song.tempo) * 4)).sum) ∧
    ((∀ sec ∈ song.sections, ∀ line ∈ sec.chords,
        (splitChordsP0 line).length = 4 ∨ (splitChordsP0 line).length = 0) →
      renderSongTotalDuration song = ((renderMusicTrace song st).2 - st) + 5) := by
  have hlines : ∀ (lines : List String) (acc : List Ev × ℚ),
      (lines.foldl (lineStepP0 ((60 / parseTempoP0 song.tempo) * 4)) acc).2 =
        acc.2 + (lines.map (fun line => ((splitChordsP0 line).length : ℚ) *
          (((60 / parseTempoP0 song.tempo) * 4) /
            ((if (splitChordsP0 line).length = 0 then 1
              else (splitChordsP0 line).length : ℕ) : ℚ)))).sum := by
    intro lines
    induction lines with
    | nil => intro acc; simp
    | cons line lines ih =>
        intro acc
        rw [List.foldl_cons, ih, lineStepP0_cursor]
        simp only [List.map_cons, List.sum_cons]
        ring
  have hflat : ∀ lines : List String,
      (lines.flatMap (fun line =>
        List.replicate (splitChordsP0 line).length
          (((60 / parseTempoP0 song.tempo) * 4) /
            ((if (splitChordsP0 line).length = 0 then 1
              else (splitChordsP0 line).length : ℕ) : ℚ)))).sum =
      (lines.map (fun line => ((splitChordsP0 line).length : ℚ) *
        (((60 / parseTempoP0 song.tempo) * 4) /
          ((if (splitChordsP0 line).length = 0 then 1
            else (splitChordsP0 line).length : ℕ) : ℚ)))).sum := by
    intro lines
    rw [sum_flatMap]
    refine congrArg List.sum (List.map_congr_left ?_)
    intro a _
    simp [List.sum_replicate]
  have hcursor : (renderMusicTrace song st).2 =
      st + (p0SlotDurations song ((60 / parseTempoP0 song.tempo) * 4)).sum := by
    rw [renderMusicTrace, p0SlotDurations, sum_flatMap]
    have : ∀ (secs : List SongSection) (acc : List Ev × ℚ),
        (secs.foldl (fun acc sec => sec.chords.foldl
          (lineStepP0 ((60 / parseTempoP0 song.tempo) * 4)) acc) acc).2 =
          acc.2 + (secs.map (fun sec => (sec.chords.flatMap (fun line =>
            List.replicate (splitChordsP0 line).length
              (((60 / parseTempoP0 song.tempo) * 4) /
                ((if (splitChordsP0 line).length = 0 then 1
                  else (splitChordsP0 line).length : ℕ) : ℚ)))).sum)).sum := by
      intro secs
      induction secs with
      | nil => intro acc; simp
      | cons sec secs ih =>
          intro acc
          rw [List.foldl_cons, ih, hlines]
          rw [List.map_cons, List.sum_cons, hflat sec.chords]
          ring
    rw [this]
  refine ⟨hcursor, ?_⟩
  intro hcond
  rw [hcursor, renderSongTotalDuration, totalChordsP0]
  have hTotLines : ∀ (lines : List String) (n : ℕ),
      (lines.foldl (fun m cl => m + (splitChordsP0 cl).length) n) =
        n + (lines.map (fun cl => (splitChordsP0 cl).length)).sum := by
    intro lines
    induction lines with
    | nil => intro n; simp
    | cons line lines ih =>
        intro n
        rw [List.foldl_cons, ih]
        simp only [List.map_cons, List.sum_cons]
        omega
  have hTot : ∀ (secs : List SongSection) (n : ℕ),
      (secs.foldl (fun n s => s.chords.foldl
        (fun m cl => m + (splitChordsP0 cl).length) n) n) =
        n + (secs.map (fun s =>
          (s.chords.map (fun cl => (splitChordsP0 cl).length)).sum)).sum := by
    intro secs
    induction secs with
    | nil => intro n; simp
    | cons sec secs ih =>
        intro n
        rw [List.foldl_cons, ih, hTotLines]
        simp only [List.map_cons, List.sum_cons]
        omega
  have hlinesum : ∀ (lines : List String),
      (∀ line ∈ lines, (splitChordsP0 line).length = 4 ∨
        (splitChordsP0 line).length = 0) →
      (lines.map (fun line =>
        (List.replicate (splitChordsP0 line).length
          (((60 / parseTempoP0 song.tempo) * 4) /
            ((if (splitChordsP0 line).length = 0 then 1
              else (splitChordsP0 line).length : ℕ) : ℚ))).sum)).sum =
      (((lines.map (fun cl => (splitChordsP0 cl).length)).sum : ℕ) : ℚ) *
        (((60 / parseTempoP0 song.tempo) * 4) / 4) := by
    intro lines
    induction lines with
    | nil => intro _; simp
    | cons line lines ih =>
        intro h
        have hhead := h line (List.mem_cons_self line lines)
        have htail := ih (fun l hl => h l (List.mem_cons_of_mem line hl))
        simp only [List.map_cons, List.sum_cons, htail]
        rcases hhead with h4 | h0
        · rw [h4]
          norm_num [List.sum_replicate]
          try ring
        · rw [h0]
          norm_num [List.sum_replicate]
          try ring
  have hsecsum : ∀ (secs : List SongSection),
      (∀ sec ∈ secs, ∀ line ∈ sec.chords, (splitChordsP0 line).length = 4 ∨
        (splitChordsP0 line).length = 0) →
      (secs.map (fun sec => (sec.chords.flatMap (fun line =>
        List.replicate (splitChordsP0 line).length
          (((60 / parseTempoP0 song.tempo) * 4) /
            ((if (splitChordsP0 line).length = 0 then 1
              else (splitChordsP0 line).length : ℕ) : ℚ)))).sum)).sum =
      (((secs.map (fun s =>
        (s.chords.map (fun cl => (splitChordsP0 cl).length)).sum)).sum : ℕ) : ℚ) *
        (((60 / parseTempoP0 song.tempo) * 4) / 4) := by
    intro secs
    induction secs with
    | nil => intro _; simp
    | cons sec secs ih =>
        intro h
        have hhead := hlinesum sec.chords
          (fun l hl => h sec (List.mem_cons_self sec secs) l hl)
        have htail := ih (fun s hs l hl => h s (List.mem_cons_of_mem sec hs) l hl)
        simp only [List.map_cons, List.sum_cons, htail]
        rw [sum_flatMap, hhead]
        push_cast
        ring
  rw [p0SlotDurations, sum_flatMap, hsecsum song.sections hcond, hTot]
  push_cast
  ring

/-- C1 counterexample: for the one-chord song (bpm 120, bar 2 s) the
cursor advances by 2 s, so sum-of-slots + 5 s tail is 7 s, but
renderSongToBlob sizes the buffer to 1 · (2/4) + 5 = 5.5 s — the
offline buffer duration is not the cursor advance plus the tail. -/
theorem offline_duration_cex :
    renderSongTotalDuration oneChordSong = 11 / 2 ∧
    ((renderMusicTrace oneChordSong 0).2 - 0) + 5 = 7 ∧
    renderSongTotalDuration oneChordSong ≠
      ((renderMusicTrace oneChordSong 0).2 - 0) + 5 := by
  have ht : parseTempoP0 "120" = 120 := by decide
  have h2 : splitChordsP0 "C" = ["C"] := by decide
  have hp : parseRoot "C" = some ("C", "") := by decide
  have hi : chordIntervalsP0 "maj" = [0, 4, 7] := by decide
  have h3 : getChordFrequenciesP0 "C" = [(261.63, 0), (261.63, 4), (261.63, 7)] := by
    simp [getChordFrequenciesP0, hp, hi, NOTES, List.lookup]
  refine ⟨?_, ?_, ?_⟩ <;>
    norm_num [renderSongTotalDuration, totalChordsP0, renderMusicTrace, oneChordSong,
      ht, h2, lineStepP0, slotStepP0, h3]

/-- C1 witness: on the four-chord song every line has four chords, and
the analytic offline duration equals the cursor advance plus the 5 s
tail. -/
theorem offline_duration_vs_cursor_witness :
    (∀ sec ∈ fourChordSong.sections, ∀ line ∈ sec.chords,
      (splitChordsP0 line).length = 4 ∨ (splitChordsP0 line).length = 0) ∧
    renderSongTotalDuration fourChordSong =
      ((renderMusicTrace fourChordSong 0).2 - 0) + 5 := by
  have hcond : ∀ sec ∈ fourChordSong.sections, ∀ line ∈ sec.chords,
      (splitChordsP0 line).length = 4 ∨ (splitChordsP0 line).length = 0 := by
    intro sec hsec line hline
    fin_cases hsec
    fin_cases hline
    left
    decide
  exact ⟨hcond, (offline_duration_vs_cursor fourChordSong 0).2 hcond⟩

/-!
## C10 — the WAV payload is well formed
-/

/-- Reading a 16-bit field past a prefix chunk. -/
theorem readLE16_skip (chunk rest : List ℕ) (off : ℕ) :
    readLE16 (chunk ++ rest) (chunk.length + off) = readLE16 rest off := by
  simp only [readLE16, List.getD_eq_getElem?_getD]
  rw [List.getElem?_append_right (by omega), List.getElem?_append_right (by omega)]
  have e1 : chunk.length + off - chunk.length = off := by omega
  have e2 : chunk.length + off + 1 - chunk.length = off + 1 := by omega
  rw [e1, e2]

/-- Reading a 32-bit field past a prefix chunk. -/
theorem readLE32_skip (chunk rest : List ℕ) (off : ℕ) :
    readLE32 (chunk ++ rest) (chunk.length + off) = readLE32 rest off := by
  simp only [readLE32, List.getD_eq_getElem?_getD]
  rw [List.getElem?_append_right (by omega), List.getElem?_append_right (by omega),
    List.getElem?_append_right (by omega), List.getElem?_append_right (by omega)]
  have e1 : chunk.length + off - chunk.length = off := by omega
  have e2 : chunk.length + off + 1 - chunk.length = off + 1 := by omega
  have e3 : chunk.length + off + 2 - chunk.length = off + 2 := by omega
  have e4 : chunk.length + off + 3 - chunk.length = off + 3 := by omega
  rw [e1, e2, e3, e4]

/-- A 16-bit little-endian write reads back as the written value. -/
theorem readLE16_here (n : ℕ) (rest : List ℕ) (h : n < 65536) :
    readLE16 (le16 n ++ rest) 0 = n := by
  simp only [le16, readLE16, List.cons_append, List.getD_cons_zero, List.getD_cons_succ]
  omega

/-- A 32-bit little-endian write reads back as the written value. -/
theorem readLE32_here (n : ℕ) (rest : List ℕ) (h : n < 4294967296) :
    readLE32 (le32 n ++ rest) 0 = n := by
  simp only [le32, readLE32, List.cons_append, List.getD_cons_zero, List.getD_cons_succ]
  omega

/-- Reading a 16-bit field at the head of a sufficiently long list is
unaffected by a suffix. -/
theorem readLE16_head (x rest : List ℕ) (h : 2 ≤ x.length) :
    readLE16 (x ++ rest) 0 = readLE16 x 0 := by
  simp only [readLE16, List.getD_eq_getElem?_getD]
  rw [List.getElem?_append_left (by omega), List.getElem?_append_left (by omega)]

/-- The header is 44 bytes. -/
theorem wavHeader_length (b : AudioBufferModel) : (wavHeader b).length = 44 := by
  simp [wavHeader, le32, le16]

/-- Each encoded sample is two bytes. -/
theorem sampleBytes_length (s : ℚ) : (sampleBytes s).length = 2 := by
  simp [sampleBytes, le16]

/-- The total byte length of flattening uniform-size blocks. -/
theorem flatMap_range_length {g : ℕ → List ℕ} {B : ℕ} (hlen : ∀ j, (g j).length = B) :
    ∀ L : ℕ, ((List.range L).flatMap g).length = L * B := by
  intro L
  induction L with
  | zero => simp
  | succ n ih =>
      rw [List.range_succ, List.flatMap_append, List.length_append, ih]
      simp [hlen n]
      ring

/-- Splitting the flattening of uniform B-sized blocks at block o. -/
theorem flatMap_range_decomp {g : ℕ → List ℕ} {B : ℕ} (hlen : ∀ j, (g j).length = B)
    (L o : ℕ) (ho : o < L) :
    ∃ rest : List ℕ, (List.range L).flatMap g =
      ((List.range o).flatMap g) ++ (g o ++ rest) ∧
      ((List.range o).flatMap g).length = o * B := by
  have hL : L = (o + 1) + (L - o - 1) := by omega
  refine ⟨((List.range (L - o - 1)).map (fun x => o + 1 + x)).flatMap g, ?_, ?_⟩
  · nth_rewrite 1 [hL]
    rw [List.range_add, List.flatMap_append, List.range_succ, List.flatMap_append]
    simp [List.append_assoc]
  · exact flatMap_range_length hlen o

/-- C10: audioBufferToWav produces a container whose length is
44 + frames·channels·2 and whose header fields read back little-endian
as RIFF/WAVE/fmt/data chunk ids, PCM format tag 1, the channel count,
16 bits per sample, sample rate, byte rate = rate·2·channels, block
align = channels·2, and RIFF/data sizes consistent with the length;
byte pair (o, i) of the payload is exactly the encoded (clamped,
scaled, truncated) sample of channel i at frame o; and the offline
render target of renderSongToBlob is stereo at 44100 Hz. -/
theorem audioBufferToWav_wellformed (b : AudioBufferModel)
    (hlen : b.length * b.numberOfChannels * 2 + 44 < 4294967296)
    (hrate : b.sampleRate < 4294967296)
    (hbyte : b.sampleRate * 2 * b.numberOfChannels < 4294967296)
    (hchan : b.numberOfChannels * 2 < 65536) :
    ((audioBufferToWav b).length = 44 + b.length * b.numberOfChannels * 2) ∧
    readLE32 (audioBufferToWav b) 0 = 0x46464952 ∧
    readLE32 (audioBufferToWav b) 4 = (b.length * b.numberOfChannels * 2 + 44) - 8 ∧
    readLE32 (audioBufferToWav b) 8 = 0x45564157 ∧
    readLE32 (audioBufferToWav b) 12 = 0x20746d66 ∧
    readLE32 (audioBufferToWav b) 16 = 16 ∧
    readLE16 (audioBufferToWav b) 20 = 1 ∧
    readLE16 (audioBufferToWav b) 22 = b.numberOfChannels ∧
    readLE32 (audioBufferToWav b) 24 = b.sampleRate ∧
    readLE32 (audioBufferToWav b) 28 = b.sampleRate * 2 * b.numberOfChannels ∧
    readLE16 (audioBufferToWav b) 32 = b.numberOfChannels * 2 ∧
    readLE16 (audioBufferToWav b) 34 = 16 ∧
    readLE32 (audioBufferToWav b) 36 = 0x61746164 ∧
    readLE32 (audioBufferToWav b) 40 = (b.length * b.numberOfChannels * 2 + 44) - 44 ∧
    (∀ o i : ℕ, o < b.length → i < b.numberOfChannels →
      readLE16 (audioBufferToWav b) (44 + 2 * (o * b.numberOfChannels + i)) =
        readLE16 (sampleBytes ((b.channelData.getD i []).getD o 0)) 0) ∧
    (∀ song : Song, (offlineBufferParams song).1 = 2 ∧
      (offlineBufferParams song).2.2 = 44100) := by
  have hframe : ∀ o : ℕ, ((List.range b.numberOfChannels).flatMap (fun i =>
      sampleBytes ((b.channelData.getD i []).getD o 0))).length =
      b.numberOfChannels * 2 :=
    fun o => flatMap_range_length (fun j => sampleBytes_length _) _
  have hdata : (wavData b).length = b.length * (b.numberOfChannels * 2) := by
    rw [wavData]
    exact flatMap_range_length hframe _
  have hw : audioBufferToWav b =
      le32 0x46464952 ++ (le32 (b.length * b.numberOfChannels * 2 + 44 - 8) ++
      (le32 0x45564157 ++ (le32 0x20746d66 ++ (le32 16 ++ (le16 1 ++
      (le16 b.numberOfChannels ++ (le32 b.sampleRate ++
      (le32 (b.sampleRate * 2 * b.numberOfChannels) ++
      (le16 (b.numberOfChannels * 2) ++ (le16 16 ++ (le32 0x61746164 ++
      (le32 (b.length * b.numberOfChannels * 2 + 44 - 44) ++ wavData b)))))))))))) := by
    simp [audioBufferToWav, wavHeader, List.append_assoc]
  have s32 : ∀ (m : ℕ) (rest : List ℕ) (off : ℕ),
      readLE32 (le32 m ++ rest) (4 + off) = readLE32 rest off := by
    intro m rest off
    have := readLE32_skip (le32 m) rest off
    simpa [le32] using this
  have s32x : ∀ (m : ℕ) (rest : List ℕ) (off : ℕ),
      readLE32 (le16 m ++ rest) (2 + off) = readLE32 rest off := by
    intro m rest off
    have := readLE32_skip (le16 m) rest off
    simpa [le16] using this
  have s16 : ∀ (m : ℕ) (rest : List ℕ) (off : ℕ),
      readLE16 (le32 m ++ rest) (4 + off) = readLE16 rest off := by
    intro m rest off
    have := readLE16_skip (le32 m) rest off
    simpa [le32] using this
  have s16x : ∀ (m : ℕ) (rest : List ℕ) (off : ℕ),
      readLE16 (le16 m ++ rest) (2 + off) = readLE16 rest off := by
    intro m rest off
    have := readLE16_skip (le16 m) rest off
    simpa [le16] using this
  have hchanlt : b.numberOfChannels < 65536 := by omega
  refine ⟨?_, ?_, ?_, ?_, ?_, ?_, ?_, ?_, ?_, ?_, ?_, ?_, ?_, ?_, ?_, ?_⟩
  · rw [audioBufferToWav, List.length_append, wavHeader_length, hdata]
    ring
  · rw [hw]
    exact readLE32_here _ _ (by norm_num)
  · rw [hw, show (4 : ℕ) = 4 + 0 from rfl, s32]
    exact readLE32_here _ _ (by omega)
  · rw [hw, show (8 : ℕ) = 4 + (4 + 0) from rfl, s32, s32]
    exact readLE32_here _ _ (by norm_num)
  · rw [hw, show (12 : ℕ) = 4 + (4 + (4 + 0)) from rfl, s32, s32, s32]
    exact readLE32_here _ _ (by norm_num)
  · rw [hw, show (16 : ℕ) = 4 + (4 + (4 + (4 + 0))) from rfl, s32, s32, s32, s32]
    exact readLE32_here _ _ (by norm_num)
  · rw [hw, show (20 : ℕ) = 4 + (4 + (4 + (4 + (4 + 0)))) from rfl,
      s16, s16, s16, s16, s16]
    exact readLE16_here _ _ (by norm_num)
  · rw [hw, show (22 : ℕ) = 4 + (4 + (4 + (4 + (4 + (2 + 0))))) from rfl,
      s16, s16, s16, s16, s16, s16x]
    exact readLE16_here _ _ hchanlt
  · rw [hw, show (24 : ℕ) = 4 + (4 + (4 + (4 + (4 + (2 + (2 + 0)))))) from rfl,
      s32, s32, s32, s32, s32, s32x, s32x]
    exact readLE32_here _ _ hrate
  · rw [hw, show (28 : ℕ) = 4 + (4 + (4 + (4 + (4 + (2 + (2 + (4 + 0))))))) from rfl,
      s32, s32, s32, s32, s32, s32x, s32x, s32]
    exact readLE32_here _ _ hbyte
  · rw [hw, show (32 : ℕ) = 4 + (4 + (4 + (4 + (4 + (2 + (2 + (4 + (4 + 0))))))))
      from rfl, s16, s16, s16, s16, s16, s16x, s16x, s16, s16]
    exact readLE16_here _ _ hchan
  · rw [hw, show (34 : ℕ) = 4 + (4 + (4 + (4 + (4 + (2 + (2 + (4 + (4 + (2 + 0)))))))))
      from rfl, s16, s16, s16, s16, s16, s16x, s16x, s16, s16, s16x]
    exact readLE16_here _ _ (by norm_num)
  · rw [hw, show (36 : ℕ) = 4 + (4 + (4 + (4 + (4 + (2 + (2 + (4 + (4 + (2 + (2 + 0))))))))))
      from rfl, s32, s32, s32, s32, s32, s32x, s32x, s32, s32, s32x, s32x]
    exact readLE32_here _ _ (by norm_num)
  · rw [hw, show (40 : ℕ) =
      4 + (4 + (4 + (4 + (4 + (2 + (2 + (4 + (4 + (2 + (2 + (4 + 0)))))))))))
      from rfl, s32, s32, s32, s32, s32, s32x, s32x, s32, s32, s32x, s32x, s32]
    exact readLE32_here _ _ (by omega)
  · intro o i ho hi
    rw [audioBufferToWav,
      show 44 + 2 * (o * b.numberOfChannels + i) =
        (wavHeader b).length + 2 * (o * b.numberOfChannels + i) from by
          rw [wavHeader_length],
      readLE16_skip]
    obtain ⟨rest, hdecomp, hpre⟩ := flatMap_range_decomp hframe b.length o ho
    rw [wavData, hdecomp,
      show 2 * (o * b.numberOfChannels + i) =
        ((List.range o).flatMap (fun o2 => (List.range b.numberOfChannels).flatMap
          (fun i2 => sampleBytes ((b.channelData.getD i2 []).getD o2 0)))).length +
          2 * i from by rw [hpre]; ring,
      readLE16_skip]
    obtain ⟨rest2, hdecomp2, hpre2⟩ :=
      flatMap_range_decomp (fun j => sampleBytes_length
        ((b.channelData.getD j []).getD o 0)) b.numberOfChannels i hi
    rw [hdecomp2, List.append_assoc,
      show 2 * i = ((List.range i).flatMap (fun i2 =>
        sampleBytes ((b.channelData.getD i2 []).getD o 0))).length + 0 from by
          rw [hpre2]; ring,
      readLE16_skip]
    rw [readLE16_head _ _ (by rw [List.length_append, sampleBytes_length]; omega)]
    rw [readLE16_head _ _ (sampleBytes_length _).ge]
  · intro song
    exact ⟨rfl, rfl⟩

/-- Witness for C10: a concrete stereo one-frame buffer satisfies the size
hypotheses, and the well-formedness theorem yields its total length and its
sample-rate field. -/
theorem audioBufferToWav_wellformed_witness :
    (audioBufferToWav ⟨2, 1, 44100, [[1/2], [0]]⟩).length = 44 + 1 * 2 * 2 ∧
    readLE32 (audioBufferToWav ⟨2, 1, 44100, [[1/2], [0]]⟩) 24 = 44100 :=
  have h := audioBufferToWav_wellformed ⟨2, 1, 44100, [[1/2], [0]]⟩
    (by decide) (by decide) (by decide) (by decide)
  ⟨h.1, h.2.2.2.2.2.2.2.2.1⟩

end MelodyAI
